import Mathlib

/-!
Verification of the Rating & Ranking Engine of the `or-tennis-data` repository.

The definitions below are a shallow embedding of the Python source, chiefly
`generate_site.py` (flight weighting, dual-match detection, match extraction,
win/loss records, head-to-head analysis, flight-weighted scores, the per-partition
rating pipeline and the two tiebreak passes of `build_rankings`).  Machine floats
are modelled by exact rationals; Python dicts keyed by school id are modelled by
association lists looked up with `find?`; a missing key / `None` is `Option.none`.
-/

/-- Substring test helper: does `sub` occur at the head of `s`? -/
def headMatch : List Char → List Char → Bool
  | [], _ => true
  | _ :: _, [] => false
  | a :: as, b :: bs => a == b && headMatch as bs

/-- Substring test helper: does `sub` occur anywhere in `s`?  Models Python's
`sub in s` containment test on strings. -/
def hasSub (sub : List Char) : List Char → Bool
  | [] => headMatch sub []
  | c :: cs => headMatch sub (c :: cs) || hasSub sub cs

/-- Python's `sub in s` substring containment. -/
def strContains (s sub : String) : Bool := hasSub sub.toList s.toList

/-- One roster entry in a flight's team: carries the player's school id when
present (`player.get('schoolId')` yields `None` when the key is missing). -/
structure Player where
  schoolId : Option Int
deriving DecidableEq, Repr

/-- One side of an individual flight (`matchTeams` entry): its win flag
(`team.get('isWinner', False)`) and roster (`team.get('players', [])`). -/
structure MatchTeam where
  isWinner : Bool
  players : List Player
deriving DecidableEq, Repr

/-- One individual flight entry of a meet's `matches[category]` list: the flight
label (`match.get('flight', '1')`, string-typed in the source data) and the two
(or fewer) participating teams. -/
structure Flight where
  flight : String
  matchTeams : List MatchTeam
deriving DecidableEq, Repr

/-- One entry of a meet's winner or loser school group: the school id and its
optional team-level score (`w.get('score', 0)` defaults a missing score to 0). -/
structure SchoolGroupEntry where
  id : Int
  score : Option ℚ
deriving DecidableEq, Repr

/-- A raw meet record: title, the two school groups (`schools.winners` /
`schools.losers`), the flight lists keyed `Singles` and `Doubles`, and the meet
date (the source resolves `meetDateTime`/`startDate`/`date` to one date string;
we carry the resolved value). -/
structure Meet where
  title : String
  winners : List SchoolGroupEntry
  losers : List SchoolGroupEntry
  singles : List Flight
  doubles : List Flight
  date : String
deriving DecidableEq, Repr

/-- A parsed per-school season file.  `meets = none` models a malformed
top-level structure without a `'meets'` key, which `data.get('meets', [])`
silently coerces to the empty list. -/
structure SeasonData where
  meets : Option (List Meet)
deriving DecidableEq, Repr

/-- `data.get('meets', [])` of `generate_site.py`. -/
def getMeets (d : SeasonData) : List Meet := d.meets.getD []

/-- `FLIGHT_WEIGHTS` table of `generate_site.py` (values exact rationals). -/
def FLIGHT_WEIGHTS : List ((String × String) × ℚ) :=
  [ (("Singles", "1"), 1), (("Singles", "2"), 3/4),
    (("Singles", "3"), 1/4), (("Singles", "4"), 1/10),
    (("Doubles", "1"), 1), (("Doubles", "2"), 1/2),
    (("Doubles", "3"), 1/4), (("Doubles", "4"), 1/10) ]

/-- `MAX_FWS = sum(FLIGHT_WEIGHTS.values())` (3.95). -/
def MAX_FWS : ℚ := (FLIGHT_WEIGHTS.map Prod.snd).sum

/-- `get_flight_weight`: table lookup with default weight 0.10. -/
def get_flight_weight (match_type flight : String) : ℚ :=
  match FLIGHT_WEIGHTS.find? (fun p => p.1.1 == match_type && p.1.2 == flight) with
  | some p => p.2
  | none => 1/10

/-- `is_dual_match` of `generate_site.py` (identical in
`scripts/build_rankings.py`): excludes meets by title and requires exactly one
winner-group school and one loser-group school. -/
def is_dual_match (m : Meet) : Bool :=
  !(strContains m.title "State Championship") &&
  !(strContains m.title "Event" && strContains m.title ".") &&
  !(strContains m.title "District") &&
  !(strContains m.title "Tournament") &&
  (m.winners.length == 1 && m.losers.length == 1)

/-- The flight lists of a meet in source iteration order: all `Singles`
entries, then all `Doubles` entries, each tagged with its category name. -/
def meetFlights (m : Meet) : List (String × Flight) :=
  m.singles.map (fun f => ("Singles", f)) ++ m.doubles.map (fun f => ("Doubles", f))

/-- Does a team's roster mention the school (`player.get('schoolId') == school_id`
for some player)? -/
def teamHasSchool (sid : Int) (t : MatchTeam) : Bool :=
  t.players.any (fun p => p.schoolId == some sid)

/-- The opponent-identification scan of `extract_match_results`: successive
assignments over winners then losers keep the LAST entry whose id differs from
the queried school. -/
def findOpponent (winners losers : List SchoolGroupEntry) (sid : Int) : Option Int :=
  (((winners ++ losers).filter (fun e => !(e.id == sid))).getLast?).map (fun e => e.id)

/-- The played/won scan of `extract_match_results`: the first team whose roster
mentions the school settles `played` and `is_win` (both inner loops `break`). -/
def flightPlayedWin (sid : Int) (ts : List MatchTeam) : Option Bool :=
  (ts.find? (teamHasSchool sid)).map (fun t => t.isWinner)

/-- One extracted flight result tuple
`(opponent_id, match_type, flight, is_win, weight)`. -/
structure FlightResult where
  opp : Int
  mtype : String
  flight : String
  won : Bool
  weight : ℚ
deriving DecidableEq, Repr

/-- `extract_match_results` of `generate_site.py`. -/
def extract_match_results (m : Meet) (sid : Int) : List FlightResult :=
  match findOpponent m.winners m.losers sid with
  | none => []
  | some opp =>
    (meetFlights m).filterMap (fun tf =>
      (flightPlayedWin sid tf.2.matchTeams).map (fun w =>
        { opp := opp, mtype := tf.1, flight := tf.2.flight, won := w,
          weight := get_flight_weight tf.1 tf.2.flight }))

/-- `process_school_data`: flight results over qualifying dual meets, plus the
set of opponent ids (Python `set`, modelled as a deduplicated list). -/
def process_school_data (meets : List Meet) (sid : Int) : List FlightResult × List Int :=
  let rs := (meets.filter is_dual_match).flatMap (fun m => extract_match_results m sid)
  (rs, (rs.map (fun r => r.opp)).dedup)

/-- The last-assignment-wins score scan of `get_dual_match_record`: the final
value of a score variable set from every entry satisfying `p` is the last such
entry's score, with a missing score defaulting to 0. -/
def lastScoreWhere (es : List SchoolGroupEntry) (p : SchoolGroupEntry → Bool) : Option ℚ :=
  ((es.filter p).getLast?).map (fun e => e.score.getD 0)

/-- `get_dual_match_record`: dual-meet (wins, losses, ties) for a school. -/
def get_dual_match_record (meets : List Meet) (sid : Int) : Nat × Nat × Nat :=
  meets.foldl (fun acc m =>
    if is_dual_match m then
      match lastScoreWhere (m.winners ++ m.losers) (fun e => e.id == sid),
            lastScoreWhere (m.winners ++ m.losers) (fun e => !(e.id == sid)) with
      | some s, some o =>
        if o < s then (acc.1 + 1, acc.2.1, acc.2.2)
        else if s < o then (acc.1, acc.2.1 + 1, acc.2.2)
        else (acc.1, acc.2.1, acc.2.2 + 1)
      | _, _ => acc
    else acc) (0, 0, 0)

example : strContains "OSAA State Championship 2024" "State Championship" = true := by decide
example : strContains "Westview vs Aloha" "Tournament" = false := by decide
example : MAX_FWS = 79/20 := by norm_num [MAX_FWS, FLIGHT_WEIGHTS]
example : get_flight_weight "Singles" "2" = 3/4 := by
  simp [get_flight_weight, FLIGHT_WEIGHTS, List.find?]
example : get_flight_weight "Doubles" "7" = 1/10 := by
  simp [get_flight_weight, FLIGHT_WEIGHTS, List.find?]

/-- Outcome tag of one head-to-head meeting ('win' / 'loss' / 'tie' from the
perspective of the first school). -/
inductive MatchRes
  | win
  | loss
  | tie
deriving DecidableEq, Repr

/-- One entry of `get_head_to_head_detailed`'s `matches` list (the source key
`matches` is a reserved word in Lean, hence the field name `matchList`). -/
structure H2HMatch where
  date : String
  score1 : ℚ
  score2 : ℚ
  result : MatchRes
  fws1 : ℚ
  fws2 : ℚ
deriving DecidableEq, Repr

/-- Return value of `get_head_to_head_detailed`. -/
structure H2H where
  wins : Nat
  losses : Nat
  ties : Nat
  matchList : List H2HMatch
deriving DecidableEq, Repr

/-- The score scan of `get_head_to_head` / `get_head_to_head_detailed` over a
school group list: state is (school1's score, school2's score, seen-school2),
each matching entry overwriting the previous value. -/
def h2hScanEntries (s1 s2 : Int) (es : List SchoolGroupEntry)
    (init : Option ℚ × Option ℚ × Bool) : Option ℚ × Option ℚ × Bool :=
  es.foldl (fun st e =>
    if e.id == s1 then (some (e.score.getD 0), st.2.1, st.2.2)
    else if e.id == s2 then (st.1, some (e.score.getD 0), true)
    else st) init

/-- The per-team crediting step of `get_head_to_head_detailed`'s FWS loop: a
winning team's weight goes to school1 or school2 according to the schoolId of
the FIRST roster entry only (the player loop `break`s unconditionally after one
iteration). -/
def h2hTeamCredit (s1 s2 : Int) (w : ℚ) (acc : ℚ × ℚ) (t : MatchTeam) : ℚ × ℚ :=
  if t.isWinner then
    match t.players.head? with
    | some p =>
      if p.schoolId == some s1 then (acc.1 + w, acc.2)
      else if p.schoolId == some s2 then (acc.1, acc.2 + w)
      else acc
    | none => acc
  else acc

/-- Per-meet (fws1, fws2) totals of `get_head_to_head_detailed`. -/
def h2hMeetFws (s1 s2 : Int) (m : Meet) : ℚ × ℚ :=
  (meetFlights m).foldl (fun acc tf =>
    tf.2.matchTeams.foldl (h2hTeamCredit s1 s2 (get_flight_weight tf.1 tf.2.flight)) acc)
    (0, 0)

/-- Does this meet register as a head-to-head meeting of the two schools
(school2 seen in a group, both scores identified)? -/
def h2hIsVs (s1 s2 : Int) (m : Meet) : Bool :=
  match h2hScanEntries s1 s2 (m.winners ++ m.losers) (none, none, false) with
  | (some _, some _, true) => true
  | _ => false

/-- The per-meeting detail record built by `get_head_to_head_detailed` for a
qualifying meeting (arbitrary placeholder when the meet does not register). -/
def h2hEntry (s1 s2 : Int) (m : Meet) : H2HMatch :=
  match h2hScanEntries s1 s2 (m.winners ++ m.losers) (none, none, false) with
  | (some q1, some q2, _) =>
    let fws := h2hMeetFws s1 s2 m
    let res := if q2 < q1 then MatchRes.win
               else if q1 < q2 then MatchRes.loss else MatchRes.tie
    { date := m.date, score1 := q1, score2 := q2, result := res,
      fws1 := fws.1, fws2 := fws.2 }
  | _ => { date := "", score1 := 0, score2 := 0, result := MatchRes.tie,
           fws1 := 0, fws2 := 0 }

/-- One meet's contribution to `get_head_to_head_detailed`'s accumulator. -/
def h2hMeetStep (s1 s2 : Int) (acc : H2H) (m : Meet) : H2H :=
  if is_dual_match m then
    match h2hScanEntries s1 s2 (m.winners ++ m.losers) (none, none, false) with
    | (some q1, some q2, true) =>
      let fws := h2hMeetFws s1 s2 m
      let res := if q2 < q1 then MatchRes.win
                 else if q1 < q2 then MatchRes.loss else MatchRes.tie
      { wins := acc.wins + (if res = MatchRes.win then 1 else 0),
        losses := acc.losses + (if res = MatchRes.loss then 1 else 0),
        ties := acc.ties + (if res = MatchRes.tie then 1 else 0),
        matchList := acc.matchList ++
          [{ date := m.date, score1 := q1, score2 := q2, result := res,
             fws1 := fws.1, fws2 := fws.2 }] }
    | _ => acc
  else acc

/-- `get_head_to_head_detailed` of `generate_site.py`: wins / losses / ties of
school1 against school2 over school1's qualifying dual meets, plus the list of
per-meeting detail records. -/
def get_head_to_head_detailed (meets : List Meet) (s1 s2 : Int) : H2H :=
  meets.foldl (h2hMeetStep s1 s2) { wins := 0, losses := 0, ties := 0, matchList := [] }

/-- A flight counts as contested when it lists at least two teams
(`len(match_teams) >= 2` in `calculate_fws_per_match`). -/
def flightContested (f : Flight) : Bool := decide (2 ≤ f.matchTeams.length)

/-- The per-flight step of `calculate_fws_per_match`'s accumulation: every
contested flight adds its weight to the available total, and adds its weight to
the points once for each `matchTeams` entry that both lists one of the school's
players and is marked winner (the player loop `break`s on the school's first
player). -/
def fwsFlightStep (sid : Int) (acc : ℚ × ℚ) (tf : String × Flight) : ℚ × ℚ :=
  let w := get_flight_weight tf.1 tf.2.flight
  if flightContested tf.2 then
    (tf.2.matchTeams.foldl
      (fun p t => if teamHasSchool sid t && t.isWinner then p + w else p) acc.1,
     acc.2 + w)
  else acc

/-- The (points_earned, available_weight) accumulation of
`calculate_fws_per_match` for one meet. -/
def meetFwsAcc (sid : Int) (m : Meet) : ℚ × ℚ :=
  (meetFlights m).foldl (fwsFlightStep sid) (0, 0)

/-- The `normalized_fws` result of `calculate_fws_per_match`: the mean of the
per-meet `points_earned / available_weight` scores over qualifying dual meets
with positive available weight, and 0.0 when there are none. -/
def calculate_fws_per_match (meets : List Meet) (sid : Int) : ℚ :=
  let scores := (meets.filter is_dual_match).filterMap (fun m =>
    if 0 < (meetFwsAcc sid m).2 then some ((meetFwsAcc sid m).1 / (meetFwsAcc sid m).2)
    else none)
  if scores.isEmpty then 0 else scores.sum / scores.length

/-- The per-school slice of `school_data` that the rating passes read:
win percentage, FWS (raw and normalized) and the opponent set. -/
structure Base where
  wp : ℚ
  fws : ℚ
  normalized_fws : ℚ
  opponents : List Int
deriving DecidableEq, Repr

/-- The `school_data[year][gender][school_id]` entry built by `build_rankings`:
present only when the extracted results are nonempty (`if results:`). -/
def baseOf (meets : List Meet) (sid : Int) : Option Base :=
  let pr := process_school_data meets sid
  if pr.1.isEmpty then none
  else
    let dmr := get_dual_match_record meets sid
    let total := dmr.1 + dmr.2.1 + dmr.2.2
    let wp : ℚ := if 0 < total then (((dmr.1 : ℚ)) + (dmr.2.2 : ℚ) * (1/2)) / (total : ℚ) else 0
    let nf := calculate_fws_per_match meets sid
    some { wp := wp, fws := nf * MAX_FWS, normalized_fws := nf, opponents := pr.2 }

/-- One (season, gender) partition's input: the loaded per-school season files,
keyed by school id (a Python dict, so the ids are distinct in practice). -/
abbrev Partition : Type := List (Int × SeasonData)

/-- The `raw_data_cache[year][gender]` lookup. -/
def cacheOf (P : Partition) : Int → Option SeasonData :=
  fun i => (P.find? (fun p => p.1 == i)).map (fun p => p.2)

/-- The per-partition `school_data` map (insertion order preserved). -/
def baseMap (P : Partition) : List (Int × Base) :=
  P.filterMap (fun p => (baseOf (getMeets p.2) p.1).map (fun b => (p.1, b)))

/-- Dict lookup in the per-partition base map. -/
def lookupB (bm : List (Int × Base)) (i : Int) : Option Base :=
  (bm.find? (fun p => p.1 == i)).map (fun p => p.2)

/-- OWP pass of `build_rankings`: mean of opponents' WP, an opponent absent
from the partition contributing the neutral 0.5 (and 0.5 if there are no
opponents at all). -/
def owpOf (bm : List (Int × Base)) (b : Base) : ℚ :=
  let vals := b.opponents.map (fun o =>
    match lookupB bm o with
    | some ob => ob.wp
    | none => 1/2)
  if vals.isEmpty then 1/2 else vals.sum / vals.length

/-- OOWP pass of `build_rankings`: mean of opponents' OWP with the same
neutral-0.5 substitution. -/
def oowpOf (bm : List (Int × Base)) (b : Base) : ℚ :=
  let vals := b.opponents.map (fun o =>
    match lookupB bm o with
    | some ob => owpOf bm ob
    | none => 1/2)
  if vals.isEmpty then 1/2 else vals.sum / vals.length

/-- The rating fields `build_rankings` stores per school. -/
structure Rating where
  wp : ℚ
  owp : ℚ
  oowp : ℚ
  apr : ℚ
  fws : ℚ
  normalized_fws : ℚ
  power_index : ℚ
deriving DecidableEq, Repr

/-- APR and Power Index computation of `build_rankings`
(`WP_WEIGHT/OWP_WEIGHT/OOWP_WEIGHT = 0.25/0.50/0.25`,
`APR_WEIGHT = FWS_WEIGHT = 0.50`). -/
def ratingOf (bm : List (Int × Base)) (b : Base) : Rating :=
  let owp := owpOf bm b
  let oowp := oowpOf bm b
  let apr := b.wp * (1/4) + owp * (1/2) + oowp * (1/4)
  { wp := b.wp, owp := owp, oowp := oowp, apr := apr,
    fws := b.fws, normalized_fws := b.normalized_fws,
    power_index := apr * (1/2) + b.normalized_fws * (1/2) }

/-- All ratings of a partition, in `school_data` insertion order. -/
def ratings (P : Partition) : List (Int × Rating) :=
  let bm := baseMap P
  bm.map (fun p => (p.1, ratingOf bm p.2))

/-- Dict-style lookup into a partition's ratings. -/
def ratingsLookup (P : Partition) (i : Int) : Option Rating :=
  ((ratings P).find? (fun p => p.1 == i)).map (fun p => p.2)

/-- Directed edges newly reachable in one expansion step: targets of edges whose
source is already in the visited set and whose target is not. -/
def newTargets (g : List (Int × Int)) (s : List Int) : List Int :=
  ((g.filter (fun e => decide (e.1 ∈ s) && !(decide (e.2 ∈ s)))).map Prod.snd).dedup

/-- Fueled saturation of the visited set under graph successors; with enough
fuel this computes the set of nodes reachable from the start set. -/
def closureStep (g : List (Int × Int)) : Nat → List Int → List Int
  | 0, s => s
  | n + 1, s =>
    let t := newTargets g s
    if t.isEmpty then s else closureStep g n (s ++ t)

/-- Reflexive-transitive reachability over an edge list, as computed by the
visited-set loop of `would_create_circle` (which treats the start node as
reached: it tests `current == new_winner` before expanding). -/
def reaches (g : List (Int × Int)) (a b : Int) : Bool :=
  decide (b ∈ closureStep g g.length [a])

/-- A recorded tiebreak swap
`(winner_id, loser_id, wins, losses, reason, date)` of `h2h_swaps`. -/
inductive Reason
  | League
  | Statewide
  | Both
deriving DecidableEq, Repr

/-- One `h2h_swaps` entry. -/
structure Swap where
  winner : Int
  loser : Int
  wins : Nat
  losses : Nat
  reason : Reason
  swapDate : Option String
deriving DecidableEq, Repr

/-- Edge list of the applied-swaps "beats" graph. -/
def swapEdges (swaps : List Swap) : List (Int × Int) :=
  swaps.map (fun s => (s.winner, s.loser))

/-- `would_create_circle` of `build_rankings`: would adding the proposed
winner→loser edge to the graph of already-applied swaps close a cycle?  The
source's depth-first search returns true exactly when `new_winner` is reachable
from `new_loser` in the graph extended with the proposed edge. -/
def would_create_circle (new_winner new_loser : Int) (existing_swaps : List Swap) : Bool :=
  reaches ((new_winner, new_loser) :: swapEdges existing_swaps) new_loser new_winner

/-- The mutable state shared by the two tiebreak passes: the ranked list, the
applied swaps `h2h_swaps`, and the `swapped_pairs` set. -/
structure TState where
  ranked : List (Int × Rating)
  swaps : List Swap
  pairs : List (Int × Int)
deriving DecidableEq, Repr

/-- In-place swap of adjacent positions `i` and `i+1`
(`ranked[i], ranked[i+1] = ranked[i+1], ranked[i]`). -/
def swapAdj {α : Type} (l : List α) (i : Nat) : List α :=
  match l[i]?, l[i + 1]? with
  | some x, some y => (l.set i y).set (i + 1) x
  | _, _ => l

/-- The Phase 1 bubble loop: repeatedly swap the element at `cur` with its
predecessor until it sits at position `lo`. -/
def bubbleUp {α : Type} : List α → Nat → Nat → List α
  | l, 0, _ => l
  | l, cur + 1, lo => if lo < cur + 1 then bubbleUp (swapAdj l cur) cur lo else l

/-- Index of the LAST element satisfying `p` (the source's position scan
`for i, (sid, _) in enumerate(ranked)` overwrites on every match). -/
def lastIdxWhere {α : Type} (p : α → Bool) (l : List α) : Option Nat :=
  (l.reverse.findIdx? p).map (fun j => l.length - 1 - j)

/-- Fueled helper for first-occurrence deduplication (the fuel is an upper
bound on the list length, so it never runs out). -/
def firstOccAux : Nat → List String → List String
  | 0, _ => []
  | _, [] => []
  | n + 1, a :: t => a :: firstOccAux n (t.filter (fun x => !(x == a)))

/-- First-occurrence deduplication, modelling Python dict-key insertion order
(`defaultdict` keys appear in first-insertion order). -/
def firstOcc (l : List String) : List String := firstOccAux l.length l

/-- The league names in `league_groups` key order: first occurrence over the
initial ranking, empty league skipped. -/
def leagueNames (ids0 : List Int) (lg : Int → String) : List String :=
  firstOcc ((ids0.map lg).filter (fun s => !(s == "")))

/-- The member ids of one league group, in initial ranking order. -/
def leagueTeams (ids0 : List Int) (lg : Int → String) (name : String) : List Int :=
  ids0.filter (fun i => lg i == name)

/-- `school_league_rank`: 1-based position of a school within its league group,
0 for schools without a league entry (`dict.get(school_id, 0)`). -/
def school_league_rank (ids0 : List Int) (lg : Int → String) (sid : Int) : Nat :=
  if lg sid == "" then 0
  else
    match (leagueTeams ids0 lg (lg sid)).findIdx? (fun j => j == sid) with
    | some k => k + 1
    | none => 0

/-- The `league_h2h` dict of Phase 1 for one league, in insertion order:
`(winner_id, loser_id) -> (wins, losses)` for every ordered pair of cached
league members with at least one head-to-head decision. -/
def leagueH2HList (cache : Int → Option SeasonData) (teams : List Int) :
    List ((Int × Int) × Nat × Nat) :=
  teams.flatMap (fun sid =>
    match cache sid with
    | none => []
    | some d =>
      teams.filterMap (fun oid =>
        if oid == sid then none
        else
          match cache oid with
          | none => none
          | some _ =>
            let h := get_head_to_head_detailed (getMeets d) sid oid
            if 0 < h.wins || 0 < h.losses then some ((sid, oid), h.wins, h.losses)
            else none))

/-- Application of one `league_h2h` entry in Phase 1: when the head-to-head
winner sits below the loser, and no cycle would be created, bubble the winner
up to just above the loser and record the swap (unless the pair was already
recorded). -/
def phase1Apply (st : TState) (e : (Int × Int) × Nat × Nat) : TState :=
  let w := e.1.1
  let lo := e.1.2
  if e.2.1 ≤ e.2.2 then st
  else
    match lastIdxWhere (fun p => p.1 == w) st.ranked,
          lastIdxWhere (fun p => p.1 == lo) st.ranked with
    | some wpos, some lpos =>
      if lpos < wpos then
        if !(would_create_circle w lo st.swaps) then
          let r' := bubbleUp st.ranked wpos lpos
          if (w, lo) ∈ st.pairs then { ranked := r', swaps := st.swaps, pairs := st.pairs }
          else
            { ranked := r',
              swaps := st.swaps ++
                [{ winner := w, loser := lo, wins := e.2.1, losses := e.2.2,
                   reason := Reason.League, swapDate := none }],
              pairs := st.pairs ++ [(w, lo)] }
        else st
      else st
    | _, _ => st

/-- Phase 1 of the tiebreak pass: per-league head-to-head enforcement with
multi-position bubbling (league groups and membership computed from the initial
Power-Index order `ids0`). -/
def phase1 (lg : Int → String) (cache : Int → Option SeasonData) (ids0 : List Int)
    (st : TState) : TState :=
  (leagueNames ids0 lg).foldl (fun st name =>
    let teams := leagueTeams ids0 lg name
    if teams.length < 2 then st
    else (leagueH2HList cache teams).foldl phase1Apply st) st

/-- The (fws school2 total, fws school1 total) compared by the Phase 2
split-series tiebreak: sums of the per-meeting `fws1` / `fws2` values of
`get_head_to_head_detailed(school2_meets, school2_id, school1_id)`. -/
def splitFwsTotals (h : H2H) : ℚ × ℚ :=
  ((h.matchList.map (fun mm => mm.fws1)).sum, (h.matchList.map (fun mm => mm.fws2)).sum)

/-- One iteration of the Phase 2 `while i < len(ranked) - 1` loop at position
`i`: the adjacent pair is examined under the statewide Power-Index-gap
condition (`H2H_THRESHOLD = 0.02`) or the league-proximity condition
(`H2H_LEAGUE_RANK_THRESHOLD = 2`); a qualifying head-to-head edge or split-series
FWS edge swaps the pair unless `would_create_circle` objects. -/
def phase2Step (lg : Int → String) (lrank : Int → Nat) (cache : Int → Option SeasonData)
    (st : TState) (i : Nat) : TState :=
  match st.ranked[i]?, st.ranked[i + 1]? with
  | some (s1, r1), some (s2, r2) =>
    let l1 := lg s1
    let l2 := lg s2
    let condA := decide (|r1.power_index - r2.power_index| < 1/50)
    let condB := !(l1 == "") && l1 == l2 &&
      decide (((lrank s1 : Int) - (lrank s2 : Int)).natAbs ≤ 2)
    if condA || condB then
      match cache s1, cache s2 with
      | some _, some d2 =>
        let h := get_head_to_head_detailed (getMeets d2) s2 s1
        let sw :=
          if h.losses < h.wins then
            (true, ((h.matchList.filter (fun mm => mm.result == MatchRes.win)).getLast?).map
              (fun mm => mm.date))
          else if h.wins == h.losses && 0 < h.wins then
            if (splitFwsTotals h).2 < (splitFwsTotals h).1 then
              (true, (h.matchList.getLast?).map (fun mm => mm.date))
            else (false, none)
          else (false, none)
        if sw.1 then
          let reason := if condA && condB then Reason.Both
                        else if condA then Reason.Statewide else Reason.League
          if !(would_create_circle s2 s1 st.swaps) then
            { ranked := swapAdj st.ranked i,
              swaps := st.swaps ++
                [{ winner := s2, loser := s1, wins := h.wins, losses := h.losses,
                   reason := reason, swapDate := sw.2 }],
              pairs := st.pairs ++ [(s2, s1)] }
          else st
        else st
      | _, _ => st
    else st
  | _, _ => st

/-- Phase 2: a single left-to-right pass over adjacent positions
(`i = 0 .. len(ranked) - 2`), not repeated to a fixpoint. -/
def phase2 (lg : Int → String) (lrank : Int → Nat) (cache : Int → Option SeasonData)
    (st : TState) : TState :=
  (List.range (st.ranked.length - 1)).foldl (phase2Step lg lrank cache) st

/-- Stable descending insertion: a later element goes below every
already-placed element whose Power Index is at least as large. -/
def insertByPI (x : Int × Rating) : List (Int × Rating) → List (Int × Rating)
  | [] => [x]
  | y :: t => if decide (y.2.power_index < x.2.power_index) then x :: y :: t
              else y :: insertByPI x t

/-- The initial ranking: stable sort by Power Index, descending
(`sorted(..., key=power_index, reverse=True)` on a stably ordered dict). -/
def sortByPI (l : List (Int × Rating)) : List (Int × Rating) :=
  l.foldl (fun acc x => insertByPI x acc) []

/-- The full tiebreak pipeline of `build_rankings` for one partition: initial
Power-Index sort, Phase 1 league enforcement, then the Phase 2 adjacent pass. -/
def runTiebreaks (P : Partition) (lg : Int → String) : TState :=
  let r0 := sortByPI (ratings P)
  let ids0 := r0.map (fun p => p.1)
  let st1 := phase1 lg (cacheOf P) ids0 { ranked := r0, swaps := [], pairs := [] }
  phase2 lg (school_league_rank ids0 lg) (cacheOf P) st1

/-- The partition's final ranked output order (ids with their ratings). -/
def finalRanking (P : Partition) (lg : Int → String) : List (Int × Rating) :=
  (runTiebreaks P lg).ranked

/-! ### Reachability and acyclicity of the swap graph -/

/-- Edge relation of a finite directed edge list. -/
def EdgeStep (g : List (Int × Int)) (a b : Int) : Prop := (a, b) ∈ g

/-- A graph is acyclic when no node reaches itself through at least one edge. -/
def Acyclic (g : List (Int × Int)) : Prop :=
  ∀ v : Int, ¬ Relation.TransGen (EdgeStep g) v v

theorem subset_closureStep (g : List (Int × Int)) :
    ∀ (n : Nat) (s : List Int), s ⊆ closureStep g n s := by
  intro n
  induction n with
  | zero => intro s; simp [closureStep]
  | succ n ih =>
    intro s
    simp only [closureStep]
    by_cases h : (newTargets g s).isEmpty
    · simp [h]
    · simp only [h, if_false]
      exact fun x hx => ih (s ++ newTargets g s) (List.mem_append_left _ hx)

theorem mem_newTargets {g : List (Int × Int)} {s : List Int} {x : Int} :
    x ∈ newTargets g s → x ∈ (g.map Prod.snd).dedup ∧ x ∉ s := by
  intro hx
  rw [newTargets, List.mem_dedup] at hx
  obtain ⟨e, he, hex⟩ := List.mem_map.mp hx
  have := List.mem_filter.mp he
  refine ⟨List.mem_dedup.mpr (List.mem_map.mpr ⟨e, this.1, hex⟩), ?_⟩
  have h2 := this.2
  simp only [Bool.and_eq_true, Bool.not_eq_true', decide_eq_false_iff_not] at h2
  exact hex ▸ h2.2

theorem newTargets_nil_closed {g : List (Int × Int)} {s : List Int}
    (h : newTargets g s = []) : ∀ e ∈ g, e.1 ∈ s → e.2 ∈ s := by
  intro e he h1
  by_contra h2
  have : e.2 ∈ newTargets g s := by
    rw [newTargets, List.mem_dedup]
    exact List.mem_map.mpr ⟨e, List.mem_filter.mpr ⟨he, by simp [h1, h2]⟩, rfl⟩
  rw [h] at this
  exact List.not_mem_nil _ this

/-- Count of reachable-candidate targets not yet visited. -/
def missingCount (g : List (Int × Int)) (s : List Int) : Nat :=
  (((g.map Prod.snd).dedup).filter (fun b => !(decide (b ∈ s)))).length

theorem length_filter_mono {α : Type} (l : List α) (p q : α → Bool)
    (h : ∀ b, q b = true → p b = true) :
    (l.filter q).length ≤ (l.filter p).length := by
  induction l with
  | nil => simp
  | cons a t ih =>
    by_cases hq : q a = true
    · simp only [List.filter_cons, hq, h a hq, if_true, List.length_cons]
      omega
    · by_cases hp : p a = true
      · simp only [List.filter_cons, hq, hp, if_true, Bool.false_eq_true, if_false,
          List.length_cons]
        omega
      · simp only [List.filter_cons, hq, hp, if_false]
        exact ih

theorem length_filter_strict {α : Type} (l : List α) (p q : α → Bool)
    (h : ∀ b, q b = true → p b = true) (x : α) (hx : x ∈ l)
    (hpx : p x = true) (hqx : q x = false) :
    (l.filter q).length < (l.filter p).length := by
  induction l with
  | nil => cases hx
  | cons a t ih =>
    rcases List.mem_cons.mp hx with rfl | hxt
    · have hle := length_filter_mono t p q h
      simp only [List.filter_cons, hqx, hpx, Bool.false_eq_true, if_false, if_true,
        List.length_cons]
      omega
    · by_cases hq : q a = true
      · have := ih hxt
        simp only [List.filter_cons, hq, h a hq, if_true, List.length_cons]
        omega
      · by_cases hp : p a = true
        · have := ih hxt
          simp only [List.filter_cons, hq, hp, if_true, Bool.false_eq_true, if_false,
            List.length_cons]
          omega
        · simp only [List.filter_cons, hq, hp, if_false]
          exact ih hxt

theorem missingCount_append_lt {g : List (Int × Int)} {s : List Int}
    (h : newTargets g s ≠ []) :
    missingCount g (s ++ newTargets g s) < missingCount g s := by
  obtain ⟨x, hx⟩ := List.exists_mem_of_ne_nil _ h
  obtain ⟨hxd, hxs⟩ := mem_newTargets hx
  refine length_filter_strict _ _ _ ?_ x hxd (by simpa using hxs) (by simp [hx])
  intro b hb
  simp only [Bool.not_eq_true', decide_eq_false_iff_not] at hb ⊢
  exact fun hbs => hb (List.mem_append_left _ hbs)

theorem closureStep_saturates (g : List (Int × Int)) :
    ∀ (n : Nat) (s : List Int), missingCount g s ≤ n →
    newTargets g (closureStep g n s) = [] := by
  intro n
  induction n with
  | zero =>
    intro s hms
    simp only [closureStep]
    rw [List.eq_nil_iff_forall_not_mem]
    intro x hx
    obtain ⟨hxd, hxs⟩ := mem_newTargets hx
    have : x ∈ ((g.map Prod.snd).dedup).filter (fun b => !(decide (b ∈ s))) :=
      List.mem_filter.mpr ⟨hxd, by simpa using hxs⟩
    have hlen : 0 < missingCount g s := by
      rcases Nat.eq_zero_or_pos (missingCount g s) with h | h
      · exfalso
        rw [missingCount, List.length_eq_zero] at h
        rw [h] at this
        exact List.not_mem_nil _ this
      · exact h
    omega
  | succ n ih =>
    intro s hms
    simp only [closureStep]
    by_cases h : (newTargets g s).isEmpty
    · simpa [h] using List.isEmpty_iff.mp h
    · simp only [h, if_false]
      apply ih
      have hne : newTargets g s ≠ [] := fun hnil => by simp [hnil] at h
      have := @missingCount_append_lt g s hne
      omega

theorem missingCount_le_length (g : List (Int × Int)) (s : List Int) :
    missingCount g s ≤ g.length := by
  calc missingCount g s ≤ ((g.map Prod.snd).dedup).length := List.length_filter_le _ _
    _ ≤ (g.map Prod.snd).length := (List.dedup_sublist _).length_le
    _ = g.length := List.length_map _ _

theorem mem_closureStep_of_reach {g : List (Int × Int)} {a b : Int}
    (h : Relation.ReflTransGen (EdgeStep g) a b) :
    b ∈ closureStep g g.length [a] := by
  have hclosed : ∀ e ∈ g, e.1 ∈ closureStep g g.length [a] → e.2 ∈ closureStep g g.length [a] :=
    newTargets_nil_closed (closureStep_saturates g g.length [a] (missingCount_le_length g [a]))
  induction h with
  | refl => exact subset_closureStep g g.length [a] (List.mem_singleton.mpr rfl)
  | tail _ hedge ih => exact hclosed _ hedge ih

theorem reaches_complete {g : List (Int × Int)} {a b : Int}
    (h : Relation.ReflTransGen (EdgeStep g) a b) : reaches g a b = true :=
  decide_eq_true (mem_closureStep_of_reach h)

theorem transGen_cons_decompose {w l : Int} {g : List (Int × Int)} {a b : Int}
    (h : Relation.TransGen (EdgeStep ((w, l) :: g)) a b) :
    Relation.TransGen (EdgeStep g) a b ∨
      (Relation.ReflTransGen (EdgeStep g) a w ∧
        Relation.ReflTransGen (EdgeStep ((w, l) :: g)) l b) := by
  induction h using Relation.TransGen.head_induction_on with
  | base hab =>
    rcases List.mem_cons.mp hab with heq | hg
    · obtain ⟨h1, h2⟩ := Prod.mk.injEq .. ▸ heq
      subst h1; subst h2
      exact Or.inr ⟨Relation.ReflTransGen.refl, Relation.ReflTransGen.refl⟩
    · exact Or.inl (Relation.TransGen.single hg)
  | ih hac htail ihc =>
    rcases List.mem_cons.mp hac with heq | hg
    · obtain ⟨h1, h2⟩ := Prod.mk.injEq .. ▸ heq
      subst h1; subst h2
      exact Or.inr ⟨Relation.ReflTransGen.refl, htail.to_reflTransGen⟩
    · rcases ihc with hcb | ⟨h1, h2⟩
      · exact Or.inl (Relation.TransGen.head hg hcb)
      · exact Or.inr ⟨Relation.ReflTransGen.head hg h1, h2⟩

theorem acyclic_nil : Acyclic [] := by
  intro v h
  cases h with
  | single h => exact List.not_mem_nil _ h
  | tail _ h => exact List.not_mem_nil _ h

theorem acyclic_cons {g : List (Int × Int)} {w l : Int}
    (hg : Acyclic g) (hr : reaches ((w, l) :: g) l w = false) : Acyclic ((w, l) :: g) := by
  intro v hcyc
  rcases transGen_cons_decompose hcyc with hgg | ⟨h1, h2⟩
  · exact hg v hgg
  · have h1' : Relation.ReflTransGen (EdgeStep ((w, l) :: g)) v w :=
      h1.mono (fun a b hab => List.mem_cons_of_mem _ hab)
    have : Relation.ReflTransGen (EdgeStep ((w, l) :: g)) l w := h2.trans h1'
    rw [reaches_complete this] at hr
    simp at hr

theorem acyclic_of_mem_iff {g₁ g₂ : List (Int × Int)}
    (h : ∀ x : Int × Int, x ∈ g₂ → x ∈ g₁) :
    Acyclic g₁ → Acyclic g₂ := by
  intro hg v hv
  exact hg v (hv.mono (fun a b hab => h (a, b) hab))

/-! ### Structural lemmas about the reordering operations -/

theorem swapAdj_cons {α : Type} (a : α) (t : List α) (i : Nat) :
    swapAdj (a :: t) (i + 1) = a :: swapAdj t i := by
  simp only [swapAdj, List.getElem?_cons_succ]
  cases hx : t[i]? with
  | none => rfl
  | some x =>
    cases hy : t[i + 1]? with
    | none => rfl
    | some y => rfl

theorem swapAdj_perm {α : Type} : ∀ (l : List α) (i : Nat), (swapAdj l i).Perm l := by
  intro l
  induction l with
  | nil => intro i; simp [swapAdj]
  | cons a t ih =>
    intro i
    cases i with
    | zero =>
      cases t with
      | nil => simp [swapAdj]
      | cons b t2 =>
        have : swapAdj (a :: b :: t2) 0 = b :: a :: t2 := by
          simp [swapAdj, List.set]
        rw [this]
        exact List.Perm.swap a b t2
    | succ i =>
      rw [swapAdj_cons]
      exact (ih i).cons a

theorem bubbleUp_perm {α : Type} : ∀ (cur : Nat) (l : List α) (lo : Nat),
    (bubbleUp l cur lo).Perm l := by
  intro cur
  induction cur with
  | zero => intro l lo; exact List.Perm.refl _
  | succ cur ih =>
    intro l lo
    simp only [bubbleUp]
    by_cases h : lo < cur + 1
    · simp only [h, if_true]
      exact (ih (swapAdj l cur) lo).trans (swapAdj_perm l cur)
    · simp [h]

theorem phase1Apply_perm (st : TState) (e : (Int × Int) × Nat × Nat) :
    ((phase1Apply st e).ranked).Perm st.ranked := by
  simp only [phase1Apply]
  repeat' split
  all_goals first
    | exact List.Perm.refl _
    | exact bubbleUp_perm _ _ _

theorem phase2Step_perm (lg : Int → String) (lrank : Int → Nat)
    (cache : Int → Option SeasonData) (st : TState) (i : Nat) :
    ((phase2Step lg lrank cache st i).ranked).Perm st.ranked := by
  simp only [phase2Step]
  repeat' split
  all_goals first
    | exact List.Perm.refl _
    | exact swapAdj_perm _ _

theorem foldl_ranked_perm {β : Type} (f : TState → β → TState)
    (hf : ∀ st x, ((f st x).ranked).Perm st.ranked) :
    ∀ (l : List β) (st : TState), ((l.foldl f st).ranked).Perm st.ranked := by
  intro l
  induction l with
  | nil => intro st; exact List.Perm.refl _
  | cons x t ih =>
    intro st
    exact (ih (f st x)).trans (hf st x)

theorem phase1_perm (lg : Int → String) (cache : Int → Option SeasonData)
    (ids0 : List Int) (st : TState) :
    ((phase1 lg cache ids0 st).ranked).Perm st.ranked := by
  unfold phase1
  apply foldl_ranked_perm
  intro st name
  dsimp only
  split
  · exact List.Perm.refl _
  · exact foldl_ranked_perm phase1Apply phase1Apply_perm _ st

theorem phase2_perm (lg : Int → String) (lrank : Int → Nat)
    (cache : Int → Option SeasonData) (st : TState) :
    ((phase2 lg lrank cache st).ranked).Perm st.ranked :=
  foldl_ranked_perm _ (phase2Step_perm lg lrank cache) _ st

theorem insertByPI_perm (x : Int × Rating) :
    ∀ (l : List (Int × Rating)), (insertByPI x l).Perm (x :: l) := by
  intro l
  induction l with
  | nil => exact List.Perm.refl _
  | cons y t ih =>
    simp only [insertByPI]
    split
    · exact List.Perm.refl _
    · exact (ih.cons y).trans (List.Perm.swap x y t)

theorem sortByPI_perm_aux :
    ∀ (l acc : List (Int × Rating)),
      (l.foldl (fun acc x => insertByPI x acc) acc).Perm (acc ++ l) := by
  intro l
  induction l with
  | nil => intro acc; simp
  | cons x t ih =>
    intro acc
    refine (ih (insertByPI x acc)).trans ?_
    refine ((insertByPI_perm x acc).append_right t).trans ?_
    simpa using List.perm_middle.symm

theorem sortByPI_perm (l : List (Int × Rating)) : (sortByPI l).Perm l := by
  simpa using sortByPI_perm_aux l []

theorem finalRanking_perm (P : Partition) (lg : Int → String) :
    (finalRanking P lg).Perm (ratings P) := by
  unfold finalRanking runTiebreaks
  refine ((phase2_perm _ _ _ _).trans ((phase1_perm _ _ _ _).trans ?_))
  exact sortByPI_perm (ratings P)

/-! ### Acyclicity preservation through the tiebreak passes -/

theorem acyclic_snoc {swaps : List Swap} {w l : Int} {wn ls : Nat} {re : Reason}
    {dt : Option String}
    (hg : Acyclic (swapEdges swaps))
    (hc : would_create_circle w l swaps = false) :
    Acyclic (swapEdges (swaps ++
      [{ winner := w, loser := l, wins := wn, losses := ls, reason := re, swapDate := dt }])) := by
  have hcons : Acyclic ((w, l) :: swapEdges swaps) := acyclic_cons hg hc
  apply @acyclic_of_mem_iff ((w, l) :: swapEdges swaps)
  · intro x hx
    simp only [swapEdges, List.map_append, List.mem_append, List.map_cons, List.map_nil,
      List.mem_singleton] at hx
    rcases hx with hx | hx
    · exact List.mem_cons_of_mem _ (by simpa [swapEdges] using hx)
    · simp [hx]
  · exact hcons

theorem phase1Apply_acyclic (st : TState) (e : (Int × Int) × Nat × Nat)
    (h : Acyclic (swapEdges st.swaps)) :
    Acyclic (swapEdges (phase1Apply st e).swaps) := by
  simp only [phase1Apply]
  repeat' split
  all_goals first
    | exact h
    | exact acyclic_snoc h (by simp_all)

theorem phase2Step_acyclic (lg : Int → String) (lrank : Int → Nat)
    (cache : Int → Option SeasonData) (st : TState) (i : Nat)
    (h : Acyclic (swapEdges st.swaps)) :
    Acyclic (swapEdges (phase2Step lg lrank cache st i).swaps) := by
  simp only [phase2Step]
  repeat' split
  all_goals first
    | exact h
    | exact acyclic_snoc h (by simp_all)

theorem foldl_swaps_acyclic {β : Type} (f : TState → β → TState)
    (hf : ∀ st x, Acyclic (swapEdges st.swaps) → Acyclic (swapEdges (f st x).swaps)) :
    ∀ (l : List β) (st : TState), Acyclic (swapEdges st.swaps) →
      Acyclic (swapEdges (l.foldl f st).swaps) := by
  intro l
  induction l with
  | nil => intro st h; exact h
  | cons x t ih =>
    intro st h
    exact ih (f st x) (hf st x h)

theorem phase1_acyclic (lg : Int → String) (cache : Int → Option SeasonData)
    (ids0 : List Int) (st : TState) (h : Acyclic (swapEdges st.swaps)) :
    Acyclic (swapEdges (phase1 lg cache ids0 st).swaps) := by
  unfold phase1
  refine foldl_swaps_acyclic _ ?_ _ st h
  intro st name hst
  dsimp only
  split
  · exact hst
  · exact foldl_swaps_acyclic phase1Apply phase1Apply_acyclic _ st hst

theorem phase2_acyclic (lg : Int → String) (lrank : Int → Nat)
    (cache : Int → Option SeasonData) (st : TState) (h : Acyclic (swapEdges st.swaps)) :
    Acyclic (swapEdges (phase2 lg lrank cache st).swaps) :=
  foldl_swaps_acyclic _ (phase2Step_acyclic lg lrank cache) _ st h

/-! ### Membership of the ranked output -/

theorem baseOf_isSome_iff (meets : List Meet) (sid : Int) :
    (baseOf meets sid).isSome = true ↔ (process_school_data meets sid).1 ≠ [] := by
  simp only [baseOf]
  by_cases h : (process_school_data meets sid).1.isEmpty
  · simp [h, List.isEmpty_iff.mp h]
  · have h' : (process_school_data meets sid).1 ≠ [] := by
      simpa [List.isEmpty_iff] using h
    simp [h, h']

theorem mem_ratings_iff {P : Partition} {sid : Int} {r : Rating} :
    (sid, r) ∈ ratings P ↔
      ∃ b, (sid, b) ∈ baseMap P ∧ r = ratingOf (baseMap P) b := by
  simp only [ratings, List.mem_map, Prod.mk.injEq]
  constructor
  · rintro ⟨p, hp, h1, h2⟩
    subst h1
    exact ⟨p.2, by simpa using hp, h2.symm⟩
  · rintro ⟨b, hb, hr⟩
    exact ⟨(sid, b), hb, rfl, hr.symm⟩

theorem ratings_fst (P : Partition) :
    (ratings P).map Prod.fst = (baseMap P).map Prod.fst := by
  simp [ratings]

theorem fst_mem_baseMap_iff {P : Partition} {sid : Int} :
    (sid ∈ (baseMap P).map Prod.fst) ↔
      ∃ d, (sid, d) ∈ P ∧ (process_school_data (getMeets d) sid).1 ≠ [] := by
  simp only [baseMap, List.mem_map, List.mem_filterMap, Option.map_eq_some']
  constructor
  · rintro ⟨q, ⟨p, hp, b, hb, hq⟩, hfst⟩
    refine ⟨p.2, ?_, ?_⟩
    · have : p.1 = sid := by rw [← hq] at hfst; simpa using hfst
      rwa [← this]
    · have hsid : p.1 = sid := by rw [← hq] at hfst; simpa using hfst
      rw [← hsid]
      exact (baseOf_isSome_iff _ _).mp (by rw [hb]; rfl)
  · rintro ⟨d, hd, hne⟩
    obtain ⟨b, hb⟩ := Option.isSome_iff_exists.mp ((baseOf_isSome_iff _ _).mpr hne)
    exact ⟨(sid, b), ⟨(sid, d), hd, b, hb, rfl⟩, rfl⟩

/-! ### Shared concrete example data (Scenario A of the specification) -/

/-- A one-sided roster: a single player of the given school. -/
def mkTeam (w : Bool) (sid : Int) : MatchTeam :=
  { isWinner := w, players := [{ schoolId := some sid }] }

/-- A contested flight won by `winSid` against `loseSid`. -/
def mkFlight (fl : String) (winSid loseSid : Int) : Flight :=
  { flight := fl, matchTeams := [mkTeam true winSid, mkTeam false loseSid] }

/-- Scenario A meet: school 1 defeats school 2 by 5-3, winning flights
S1, S2 and D1 (weights 1.00 + 0.75 + 1.00). -/
def meetA : Meet :=
  { title := "Team A vs Team B", winners := [⟨1, some 5⟩], losers := [⟨2, some 3⟩],
    singles := [mkFlight "1" 1 2, mkFlight "2" 1 2, mkFlight "3" 2 1, mkFlight "4" 2 1],
    doubles := [mkFlight "1" 1 2, mkFlight "2" 2 1, mkFlight "3" 2 1, mkFlight "4" 2 1],
    date := "2024-04-01" }

/-- Scenario A partition: only school 1's season file is present, so its
opponent (school 2) is an unknown neutral-0.5 team. -/
def PA : Partition := [(1, { meets := some [meetA] })]

/-- The empty league assignment. -/
def lgEmpty : Int → String := fun _ => ""

/-- The rating Scenario A predicts for school 1: `wp = 1`, `owp = oowp = 0.5`,
`apr = 0.625`, `normalized_fws = 2.75/3.95 = 55/79`,
`power_index = 0.5*0.625 + 0.5*55/79 = 835/1264 ≈ 0.660`. -/
def rA : Rating :=
  { wp := 1, owp := 1/2, oowp := 1/2, apr := 5/8,
    fws := 11/4, normalized_fws := 55/79, power_index := 835/1264 }

/-! ### Claim theorems -/

/-- C1: for every team in a partition's ranked output, the emitted ratings
satisfy `apr = 0.25*wp + 0.50*owp + 0.25*oowp` and
`power_index = 0.5*apr + 0.5*fws_normalized`, as computed before the 4-decimal
display rounding. -/
theorem c1_rating_formulas (P : Partition) (lg : Int → String) (sid : Int) (r : Rating)
    (h : (sid, r) ∈ finalRanking P lg) :
    r.apr = (1/4) * r.wp + (1/2) * r.owp + (1/4) * r.oowp ∧
    r.power_index = (1/2) * r.apr + (1/2) * r.normalized_fws := by
  have hmem : (sid, r) ∈ ratings P := ((finalRanking_perm P lg).mem_iff).mp h
  obtain ⟨b, hb, rfl⟩ := mem_ratings_iff.mp hmem
  constructor
  · simp only [ratingOf]
    ring
  · simp only [ratingOf]
    ring

set_option maxRecDepth 100000 in
/-- Witness for C1 at the Scenario A partition. -/
theorem c1_witness :
    rA.apr = (1/4) * rA.wp + (1/2) * rA.owp + (1/4) * rA.oowp ∧
    rA.power_index = (1/2) * rA.apr + (1/2) * rA.normalized_fws :=
  c1_rating_formulas PA lgEmpty 1 rA (by
    have h : finalRanking PA lgEmpty = [(1, rA)] := by with_unfolding_all decide
    simp [h])

/-- C4: the set of applied tiebreak swaps, viewed as a directed
winner-beats-loser graph, contains no cycle: every append to `h2h_swaps` in
Phase 1 and Phase 2 is guarded by the `would_create_circle` reachability check,
so the final swap graph of any partition is acyclic. -/
theorem c4_swap_graph_acyclic (P : Partition) (lg : Int → String) :
    Acyclic (swapEdges (runTiebreaks P lg).swaps) := by
  unfold runTiebreaks
  exact phase2_acyclic _ _ _ _ (phase1_acyclic _ _ _ _ acyclic_nil)

/-- C7: `is_dual_match` holds iff the title contains none of
"State Championship", "District", "Tournament", the title does not match the
"Event"-with-numeric-suffix pattern (realised in the source as containing both
"Event" and "."), and the winner and loser groups each hold exactly one team. -/
theorem c7_is_dual_match_iff (m : Meet) :
    is_dual_match m = true ↔
      ((strContains m.title "State Championship" = false ∧
        strContains m.title "District" = false ∧
        strContains m.title "Tournament" = false) ∧
       ¬ (strContains m.title "Event" = true ∧ strContains m.title "." = true) ∧
       (m.winners.length = 1 ∧ m.losers.length = 1)) := by
  simp only [is_dual_match, Bool.and_eq_true, Bool.not_eq_true', Bool.and_eq_false_iff,
    beq_iff_eq]
  constructor
  · intro h
    obtain ⟨⟨⟨⟨h1, h2⟩, h4⟩, h5⟩, h6, h7⟩ := h
    refine ⟨⟨h1, h4, h5⟩, ?_, h6, h7⟩
    rintro ⟨e1, e2⟩
    rcases h2 with h2 | h2 <;> simp_all
  · intro h
    obtain ⟨⟨h1, h4, h5⟩, h2, h6, h7⟩ := h
    refine ⟨⟨⟨⟨h1, ?_⟩, h4⟩, h5⟩, h6, h7⟩
    by_cases he : strContains m.title "Event" = true
    · refine Or.inr ?_
      rcases Bool.eq_false_or_eq_true (strContains m.title ".") with hd | hd
      · exact (h2 ⟨he, hd⟩).elim
      · exact hd
    · exact Or.inl (by simpa using he)

/-- C8: a team appears in a partition's ranked output iff its season record
yields at least one qualifying dual-meet flight result. -/
theorem c8_ranked_iff_dual_results (P : Partition) (lg : Int → String) (sid : Int) :
    sid ∈ (finalRanking P lg).map Prod.fst ↔
      ∃ d, (sid, d) ∈ P ∧ (process_school_data (getMeets d) sid).1 ≠ [] := by
  have hperm := (finalRanking_perm P lg).map Prod.fst
  rw [hperm.mem_iff, ratings_fst, fst_mem_baseMap_iff]

/-- C9: a malformed top-level season record (no `meets` key) is silently
coerced to an empty meet list, so the engine returns an empty ranking with no
error — contradicting the specified fail-fast behaviour. -/
theorem c9_malformed_top_level_yields_empty :
    finalRanking [((1 : Int), { meets := none })] lgEmpty = [] := by
  with_unfolding_all decide

/-! ### C2: opponent-strength means -/

/-- Specification-side view: the set of distinct opponents a team faced across
its qualifying dual meets. -/
def distinctOpponents (meets : List Meet) (sid : Int) : List Int :=
  (((meets.filter is_dual_match).flatMap (fun m => extract_match_results m sid)).map
    (fun r => r.opp)).dedup

/-- Specification-side contribution of one opponent to OWP: the opponent's WP
from the same partition, or the neutral 0.5 when the opponent is unknown. -/
def owpContribution (P : Partition) (o : Int) : ℚ :=
  match ratingsLookup P o with
  | some r => r.wp
  | none => 1/2

/-- Specification-side contribution of one opponent to OOWP: the opponent's OWP
from the same partition, or the neutral 0.5 when the opponent is unknown. -/
def oowpContribution (P : Partition) (o : Int) : ℚ :=
  match ratingsLookup P o with
  | some r => r.owp
  | none => 1/2

theorem cacheOf_eq_of_nodup : ∀ {P : Partition} {sid : Int} {d d' : SeasonData},
    (P.map Prod.fst).Nodup → cacheOf P sid = some d → (sid, d') ∈ P → d' = d := by
  intro P
  induction P with
  | nil => intro sid d d' _ _ hmem; cases hmem
  | cons p t ih =>
    intro sid d d' hnd hd hmem
    have hnd2 : (p.1 :: t.map Prod.fst).Nodup := by simpa using hnd
    have hnd' := List.nodup_cons.mp hnd2
    by_cases hp : p.1 == sid
    · have hps : p.1 = sid := by simpa using hp
      have hde : p.2 = d := by
        simp only [cacheOf, List.find?_cons, hp] at hd
        simpa using hd
      rcases List.mem_cons.mp hmem with he | ht
      · rw [← hde]
        rw [← he]
      · exfalso
        apply hnd'.1
        rw [hps]
        exact List.mem_map.mpr ⟨(sid, d'), ht, rfl⟩
    · rcases List.mem_cons.mp hmem with he | ht
      · exfalso
        have : p.1 = sid := by rw [← he]
        simp [this] at hp
      · apply ih hnd'.2 ?_ ht
        simpa [cacheOf, List.find?_cons, hp] using hd

theorem baseOf_opponents {meets : List Meet} {sid : Int} {b : Base}
    (h : baseOf meets sid = some b) :
    b.opponents = (process_school_data meets sid).2 ∧
      (process_school_data meets sid).1 ≠ [] := by
  simp only [baseOf] at h
  by_cases he : (process_school_data meets sid).1.isEmpty
  · simp [he] at h
  · constructor
    · simp only [he, Bool.false_eq_true, if_false] at h
      rw [← Option.some.injEq .. |>.mp h]
    · simpa [List.isEmpty_iff] using he

theorem ratingsLookup_eq (P : Partition) (o : Int) :
    ratingsLookup P o = (lookupB (baseMap P) o).map (fun b => ratingOf (baseMap P) b) := by
  simp only [ratingsLookup, ratings, lookupB, List.find?_map]
  have hcomp : ((fun p : Int × Rating => p.1 == o) ∘
      fun p : Int × Base => (p.1, ratingOf (baseMap P) p.2)) =
      fun p : Int × Base => p.1 == o := by
    funext p
    rfl
  rw [hcomp]
  cases (baseMap P).find? (fun p => p.1 == o) <;> rfl

theorem owpContribution_eq (P : Partition) (o : Int) :
    (match lookupB (baseMap P) o with
      | some ob => ob.wp
      | none => (1 : ℚ)/2) = owpContribution P o := by
  rw [owpContribution, ratingsLookup_eq]
  cases lookupB (baseMap P) o <;> rfl

theorem oowpContribution_eq (P : Partition) (o : Int) :
    (match lookupB (baseMap P) o with
      | some ob => owpOf (baseMap P) ob
      | none => (1 : ℚ)/2) = oowpContribution P o := by
  rw [oowpContribution, ratingsLookup_eq]
  cases lookupB (baseMap P) o <;> rfl

/-- C2: for every ranked team, `owp` is the arithmetic mean over the team's set
of distinct opponents of each opponent's `wp` (a neutral 0.5 for opponents
absent from the partition), and `oowp` is the analogous mean of the opponents'
`owp` values with the same 0.5 substitution. -/
theorem c2_owp_oowp_means (P : Partition) (lg : Int → String) (sid : Int) (r : Rating)
    (d : SeasonData)
    (hnd : (P.map Prod.fst).Nodup)
    (hmem : (sid, r) ∈ finalRanking P lg)
    (hd : cacheOf P sid = some d) :
    distinctOpponents (getMeets d) sid ≠ [] ∧
    r.owp = ((distinctOpponents (getMeets d) sid).map (owpContribution P)).sum /
      ((distinctOpponents (getMeets d) sid).length : ℚ) ∧
    r.oowp = ((distinctOpponents (getMeets d) sid).map (oowpContribution P)).sum /
      ((distinctOpponents (getMeets d) sid).length : ℚ) := by
  have hmem' : (sid, r) ∈ ratings P := ((finalRanking_perm P lg).mem_iff).mp hmem
  obtain ⟨b, hb, rfl⟩ := mem_ratings_iff.mp hmem'
  obtain ⟨p, hp, hfb⟩ := List.mem_filterMap.mp hb
  obtain ⟨b', hb', hpb⟩ := Option.map_eq_some'.mp hfb
  have hfst : p.1 = sid := congrArg Prod.fst hpb
  have hsnd : b' = b := congrArg Prod.snd hpb
  have hpd : p.2 = d := by
    apply cacheOf_eq_of_nodup hnd hd
    rw [← hfst]
    simpa using hp
  have hbase : baseOf (getMeets d) sid = some b := by
    rw [← hfst, ← hpd, hb', hsnd]
  obtain ⟨hopp, hres⟩ := baseOf_opponents hbase
  have hoppd : b.opponents = distinctOpponents (getMeets d) sid := by
    rw [hopp]
    rfl
  have hne : distinctOpponents (getMeets d) sid ≠ [] := by
    simp only [distinctOpponents, Ne, List.dedup_eq_nil, List.map_eq_nil_iff]
    intro hnil
    exact hres hnil
  refine ⟨hne, ?_, ?_⟩
  · have : (ratingOf (baseMap P) b).owp = owpOf (baseMap P) b := rfl
    rw [this, owpOf, ← hoppd]
    have hvne : ¬ ((b.opponents.map (fun o =>
        match lookupB (baseMap P) o with
        | some ob => ob.wp
        | none => (1 : ℚ)/2)).isEmpty) := by
      rw [List.isEmpty_iff]
      intro hnil
      rcases List.map_eq_nil_iff.mp hnil with h
      exact (hoppd ▸ hne) h
    simp only [hvne, Bool.false_eq_true, if_false]
    rw [List.map_congr_left (fun o _ => owpContribution_eq P o), List.length_map]
  · have : (ratingOf (baseMap P) b).oowp = oowpOf (baseMap P) b := rfl
    rw [this, oowpOf, ← hoppd]
    have hvne : ¬ ((b.opponents.map (fun o =>
        match lookupB (baseMap P) o with
        | some ob => owpOf (baseMap P) ob
        | none => (1 : ℚ)/2)).isEmpty) := by
      rw [List.isEmpty_iff]
      intro hnil
      rcases List.map_eq_nil_iff.mp hnil with h
      exact (hoppd ▸ hne) h
    simp only [hvne, Bool.false_eq_true, if_false]
    rw [List.map_congr_left (fun o _ => oowpContribution_eq P o), List.length_map]

/-! ### C5: flight-weighted score specification -/

/-- Specification-side: total weight available in a meet — the sum of the
weights of the flights actually contested (at least two listed teams). -/
def specWeightAvailable (m : Meet) : ℚ :=
  (((meetFlights m).filter (fun tf => flightContested tf.2)).map
    (fun tf => get_flight_weight tf.1 tf.2.flight)).sum

/-- Did the school win this flight (some winning `matchTeams` entry lists one
of its players)? -/
def teamWonFlight (sid : Int) (f : Flight) : Bool :=
  f.matchTeams.any (fun t => teamHasSchool sid t && t.isWinner)

/-- Specification-side: points earned in a meet — the sum of the weights of the
contested flights the team won. -/
def specPointsEarned (sid : Int) (m : Meet) : ℚ :=
  (((meetFlights m).filter
      (fun tf => flightContested tf.2 && teamWonFlight sid tf.2)).map
    (fun tf => get_flight_weight tf.1 tf.2.flight)).sum

/-- Specification-side: a qualifying dual meet for FWS purposes — a dual match
with positive contested weight. -/
def qualifyingDual (m : Meet) : Bool :=
  is_dual_match m && decide (0 < specWeightAvailable m)

/-- Specification-side: the mean of the per-meet ratios
`points_earned / weight_available` over the qualifying dual meets. -/
def specMeanFws (meets : List Meet) (sid : Int) : ℚ :=
  let scores := (meets.filter qualifyingDual).map
    (fun m => specPointsEarned sid m / specWeightAvailable m)
  scores.sum / scores.length

/-- The well-formedness proviso: in no dual-meet flight is the school listed in
more than one winning `matchTeams` entry (otherwise the source double-credits
the flight's weight). -/
def SingleCredit (sid : Int) (meets : List Meet) : Prop :=
  ∀ m ∈ meets, is_dual_match m = true → ∀ tf ∈ meetFlights m,
    (tf.2.matchTeams.filter (fun t => teamHasSchool sid t && t.isWinner)).length ≤ 1

instance (sid : Int) (meets : List Meet) : Decidable (SingleCredit sid meets) := by
  unfold SingleCredit
  infer_instance

theorem foldl_team_credit (sid : Int) (w : ℚ) :
    ∀ (ts : List MatchTeam) (p : ℚ),
      ts.foldl (fun p t => if teamHasSchool sid t && t.isWinner then p + w else p) p =
      p + w * (((ts.filter (fun t => teamHasSchool sid t && t.isWinner)).length : ℚ)) := by
  intro ts
  induction ts with
  | nil => intro p; simp
  | cons t ts ih =>
    intro p
    by_cases h : (teamHasSchool sid t && t.isWinner) = true
    · simp only [List.foldl_cons, h, if_true, List.filter_cons, List.length_cons, ih]
      push_cast
      ring
    · simp only [List.foldl_cons, h, Bool.false_eq_true, if_false, List.filter_cons, ih]

theorem won_iff_filter_pos (sid : Int) (f : Flight) :
    teamWonFlight sid f = true ↔
      0 < (f.matchTeams.filter (fun t => teamHasSchool sid t && t.isWinner)).length := by
  rw [teamWonFlight, List.any_eq_true, List.length_pos, Ne, List.filter_eq_nil_iff]
  constructor
  · rintro ⟨t, ht, hp⟩ hall
    exact (hall t ht) hp
  · intro h
    by_contra hno
    apply h
    intro t ht hp
    exact hno ⟨t, ht, hp⟩

theorem fwsFlightStep_spec (sid : Int) (acc : ℚ × ℚ) (tf : String × Flight)
    (h : (tf.2.matchTeams.filter (fun t => teamHasSchool sid t && t.isWinner)).length ≤ 1) :
    fwsFlightStep sid acc tf =
      if flightContested tf.2 then
        (acc.1 + (if teamWonFlight sid tf.2 then get_flight_weight tf.1 tf.2.flight else 0),
         acc.2 + get_flight_weight tf.1 tf.2.flight)
      else acc := by
  simp only [fwsFlightStep]
  by_cases hc : flightContested tf.2
  · simp only [hc, if_true, foldl_team_credit]
    by_cases hw : teamWonFlight sid tf.2 = true
    · have hpos := (won_iff_filter_pos sid tf.2).mp hw
      have : (tf.2.matchTeams.filter (fun t => teamHasSchool sid t && t.isWinner)).length = 1 := by
        omega
      simp [hw, this]
    · have : (tf.2.matchTeams.filter (fun t => teamHasSchool sid t && t.isWinner)).length = 0 := by
        have := (won_iff_filter_pos sid tf.2).mpr
        by_contra hne
        exact hw (this (by omega))
      simp [hw, this]
  · simp [hc]

theorem fwsAcc_aux (sid : Int) :
    ∀ (L : List (String × Flight)) (acc : ℚ × ℚ),
      (∀ tf ∈ L,
        (tf.2.matchTeams.filter (fun t => teamHasSchool sid t && t.isWinner)).length ≤ 1) →
      L.foldl (fwsFlightStep sid) acc =
        (acc.1 + ((L.filter (fun tf => flightContested tf.2 && teamWonFlight sid tf.2)).map
            (fun tf => get_flight_weight tf.1 tf.2.flight)).sum,
         acc.2 + ((L.filter (fun tf => flightContested tf.2)).map
            (fun tf => get_flight_weight tf.1 tf.2.flight)).sum) := by
  intro L
  induction L with
  | nil => intro acc _; simp
  | cons tf L ih =>
    intro acc h
    have hhead := h tf (List.mem_cons_self tf L)
    have htail : ∀ x ∈ L,
        (x.2.matchTeams.filter (fun t => teamHasSchool sid t && t.isWinner)).length ≤ 1 :=
      fun x hx => h x (List.mem_cons_of_mem tf hx)
    rw [List.foldl_cons, ih _ htail, fwsFlightStep_spec sid acc tf hhead]
    by_cases hc : flightContested tf.2 = true <;>
      by_cases hw : teamWonFlight sid tf.2 = true <;>
      simp [hc, hw, List.filter_cons, Prod.ext_iff] <;>
      first
        | (constructor <;> ring)
        | ring

theorem meetFwsAcc_spec (sid : Int) (m : Meet)
    (h : ∀ tf ∈ meetFlights m,
      (tf.2.matchTeams.filter (fun t => teamHasSchool sid t && t.isWinner)).length ≤ 1) :
    meetFwsAcc sid m = (specPointsEarned sid m, specWeightAvailable m) := by
  rw [meetFwsAcc, fwsAcc_aux sid _ _ h]
  simp [specPointsEarned, specWeightAvailable]

theorem fws_scores_spec (sid : Int) :
    ∀ (meets : List Meet), SingleCredit sid meets →
      ((meets.filter is_dual_match).filterMap (fun m =>
        if 0 < (meetFwsAcc sid m).2
        then some ((meetFwsAcc sid m).1 / (meetFwsAcc sid m).2) else none))
      = (meets.filter qualifyingDual).map
          (fun m => specPointsEarned sid m / specWeightAvailable m) := by
  intro meets
  induction meets with
  | nil => intro _; rfl
  | cons m t ih =>
    intro h
    have htail : SingleCredit sid t := fun x hx => h x (List.mem_cons_of_mem m hx)
    by_cases hdm : is_dual_match m = true
    · have hspec := meetFwsAcc_spec sid m (h m (List.mem_cons_self m t) hdm)
      by_cases hpos : 0 < specWeightAvailable m
      · have hq : qualifyingDual m = true := by
          simp [qualifyingDual, hdm, hpos]
        simp only [List.filter_cons, hdm, hq, if_true, List.filterMap_cons, hspec,
          List.map_cons, hpos, ih htail]
      · have hq : qualifyingDual m = false := by
          simp [qualifyingDual, hdm, hpos]
        simp only [List.filter_cons, hdm, hq, if_true, Bool.false_eq_true, if_false,
          List.filterMap_cons, hspec, hpos, ih htail]
    · have hq : qualifyingDual m = false := by
        simp [qualifyingDual, hdm]
      simp only [List.filter_cons, hdm, hq, Bool.false_eq_true, if_false, ih htail]

/-- Inversion of `baseOf`: the fields of a produced `Base` record. -/
theorem baseOf_eq {meets : List Meet} {sid : Int} {b : Base}
    (h : baseOf meets sid = some b) :
    b = { wp := if 0 < (get_dual_match_record meets sid).1 +
              (get_dual_match_record meets sid).2.1 + (get_dual_match_record meets sid).2.2 then
            (((get_dual_match_record meets sid).1 : ℚ) +
              ((get_dual_match_record meets sid).2.2 : ℚ) * (1/2)) /
            (((get_dual_match_record meets sid).1 + (get_dual_match_record meets sid).2.1 +
              (get_dual_match_record meets sid).2.2 : Nat) : ℚ)
          else 0,
          fws := calculate_fws_per_match meets sid * MAX_FWS,
          normalized_fws := calculate_fws_per_match meets sid,
          opponents := (process_school_data meets sid).2 } := by
  simp only [baseOf] at h
  by_cases he : (process_school_data meets sid).1.isEmpty
  · simp [he] at h
  · simp only [he, Bool.false_eq_true, if_false, Option.some.injEq] at h
    exact h.symm

/-- Any entry of the final ranking with season data `d` under distinct keys
arises from `baseOf` on `d`'s meets. -/
theorem mem_final_base {P : Partition} {lg : Int → String} {sid : Int} {r : Rating}
    {d : SeasonData}
    (hnd : (P.map Prod.fst).Nodup)
    (hmem : (sid, r) ∈ finalRanking P lg)
    (hd : cacheOf P sid = some d) :
    ∃ b, baseOf (getMeets d) sid = some b ∧ r = ratingOf (baseMap P) b := by
  have hmem' : (sid, r) ∈ ratings P := ((finalRanking_perm P lg).mem_iff).mp hmem
  obtain ⟨b, hb, hr⟩ := mem_ratings_iff.mp hmem'
  obtain ⟨p, hp, hfb⟩ := List.mem_filterMap.mp hb
  obtain ⟨b', hb', hpb⟩ := Option.map_eq_some'.mp hfb
  have hfst : p.1 = sid := congrArg Prod.fst hpb
  have hsnd : b' = b := congrArg Prod.snd hpb
  have hpd : p.2 = d := by
    apply cacheOf_eq_of_nodup hnd hd
    rw [← hfst]
    simpa using hp
  exact ⟨b, by rw [← hfst, ← hpd, hb', hsnd], hr⟩

/-- C5 (amended with the single-credit proviso): when no dual-meet flight
credits the team twice, `fws_normalized` is the mean over the qualifying dual
meets of `points_earned / weight_available` with the weights of contested
flights, and the raw FWS is `fws_normalized * 3.95`. -/
theorem c5_fws_mean (P : Partition) (lg : Int → String) (sid : Int) (r : Rating)
    (d : SeasonData)
    (hnd : (P.map Prod.fst).Nodup)
    (hmem : (sid, r) ∈ finalRanking P lg)
    (hd : cacheOf P sid = some d)
    (hsc : SingleCredit sid (getMeets d))
    (hq : (getMeets d).filter qualifyingDual ≠ []) :
    r.normalized_fws = specMeanFws (getMeets d) sid ∧
    r.fws = r.normalized_fws * MAX_FWS ∧
    MAX_FWS = 79/20 := by
  obtain ⟨b, hbase, rfl⟩ := mem_final_base hnd hmem hd
  have hb := baseOf_eq hbase
  have hnf : (ratingOf (baseMap P) b).normalized_fws = calculate_fws_per_match (getMeets d) sid := by
    rw [show (ratingOf (baseMap P) b).normalized_fws = b.normalized_fws from rfl, hb]
  have hfw : (ratingOf (baseMap P) b).fws = calculate_fws_per_match (getMeets d) sid * MAX_FWS := by
    rw [show (ratingOf (baseMap P) b).fws = b.fws from rfl, hb]
  refine ⟨?_, ?_, by norm_num [MAX_FWS, FLIGHT_WEIGHTS]⟩
  · rw [hnf, calculate_fws_per_match, specMeanFws]
    rw [fws_scores_spec sid (getMeets d) hsc]
    have hne : ¬ (((getMeets d).filter qualifyingDual).map
        (fun m => specPointsEarned sid m / specWeightAvailable m)).isEmpty := by
      simp only [List.isEmpty_iff, List.map_eq_nil_iff]
      exact hq
    simp only [hne, Bool.false_eq_true, if_false, List.length_map]
  · rw [hfw, hnf]

/-! ### C6: bounds of the percentage-like ratings -/

theorem list_sum_nonneg_q {l : List ℚ} (h : ∀ q ∈ l, 0 ≤ q) : 0 ≤ l.sum := by
  induction l with
  | nil => simp
  | cons a t ih =>
    have ha := h a (List.mem_cons_self a t)
    have ht := ih (fun q hq => h q (List.mem_cons_of_mem a hq))
    simp only [List.sum_cons]
    linarith

theorem list_sum_le_length_q {l : List ℚ} (h : ∀ q ∈ l, q ≤ 1) :
    l.sum ≤ (l.length : ℚ) := by
  induction l with
  | nil => simp
  | cons a t ih =>
    have ha := h a (List.mem_cons_self a t)
    have ht := ih (fun q hq => h q (List.mem_cons_of_mem a hq))
    simp only [List.sum_cons, List.length_cons]
    push_cast
    linarith

theorem mean_bounds {l : List ℚ} (h0 : ∀ q ∈ l, 0 ≤ q) (h1 : ∀ q ∈ l, q ≤ 1) :
    0 ≤ l.sum / (l.length : ℚ) ∧ l.sum / (l.length : ℚ) ≤ 1 := by
  rcases eq_or_ne l [] with rfl | hne
  · simp
  · have hlen : 0 < (l.length : ℚ) := by
      have := List.length_pos.mpr hne
      exact_mod_cast this
    constructor
    · exact div_nonneg (list_sum_nonneg_q h0) hlen.le
    · rw [div_le_one hlen]
      exact list_sum_le_length_q h1

theorem get_flight_weight_pos (t f : String) : 0 < get_flight_weight t f := by
  rw [get_flight_weight]
  cases hf : FLIGHT_WEIGHTS.find? (fun p => p.1.1 == t && p.1.2 == f) with
  | none => norm_num
  | some p =>
    have hp := List.mem_of_find?_eq_some hf
    simp only [FLIGHT_WEIGHTS, List.mem_cons, List.not_mem_nil, or_false] at hp
    rcases hp with h | h | h | h | h | h | h | h <;> rw [h] <;> norm_num

theorem sum_map_filter_mono {α : Type} (l : List α) (p q : α → Bool) (f : α → ℚ)
    (hf : ∀ a ∈ l, 0 ≤ f a) (himp : ∀ a, q a = true → p a = true) :
    ((l.filter q).map f).sum ≤ ((l.filter p).map f).sum := by
  induction l with
  | nil => simp
  | cons a t ih =>
    have ha := hf a (List.mem_cons_self a t)
    have ht := ih (fun x hx => hf x (List.mem_cons_of_mem a hx))
    by_cases hq : q a = true
    · simp only [List.filter_cons, hq, himp a hq, if_true, List.map_cons, List.sum_cons]
      linarith
    · by_cases hp : p a = true
      · simp only [List.filter_cons, hq, hp, Bool.false_eq_true, if_false, if_true,
          List.map_cons, List.sum_cons]
        linarith
      · simp only [List.filter_cons, hq, hp, Bool.false_eq_true, if_false]
        exact ht

theorem specPointsEarned_nonneg (sid : Int) (m : Meet) : 0 ≤ specPointsEarned sid m := by
  apply list_sum_nonneg_q
  intro q hq
  obtain ⟨tf, _, rfl⟩ := List.mem_map.mp hq
  exact (get_flight_weight_pos _ _).le

theorem specPoints_le_avail (sid : Int) (m : Meet) :
    specPointsEarned sid m ≤ specWeightAvailable m := by
  rw [specPointsEarned, specWeightAvailable]
  apply sum_map_filter_mono _ _ _ _ (fun a _ => (get_flight_weight_pos _ _).le)
  intro a ha
  exact ((Bool.and_eq_true ..).mp ha).1

theorem calc_fws_bounds {meets : List Meet} {sid : Int} (hsc : SingleCredit sid meets) :
    0 ≤ calculate_fws_per_match meets sid ∧ calculate_fws_per_match meets sid ≤ 1 := by
  rw [calculate_fws_per_match]
  rw [fws_scores_spec sid meets hsc]
  by_cases hemp : (((meets.filter qualifyingDual).map
      (fun m => specPointsEarned sid m / specWeightAvailable m)).isEmpty)
  · simp [hemp]
  · have hmems : ∀ q ∈ (meets.filter qualifyingDual).map
        (fun m => specPointsEarned sid m / specWeightAvailable m), 0 ≤ q ∧ q ≤ 1 := by
      intro q hq
      obtain ⟨m, hm, rfl⟩ := List.mem_map.mp hq
      have hqd : qualifyingDual m = true := (List.mem_filter.mp hm).2
      have havail : 0 < specWeightAvailable m := by
        have := (Bool.and_eq_true ..).mp hqd
        exact of_decide_eq_true this.2
      constructor
      · exact div_nonneg (specPointsEarned_nonneg sid m) havail.le
      · rw [div_le_one havail]
        exact specPoints_le_avail sid m
    simp only [hemp, Bool.false_eq_true, if_false]
    exact mean_bounds (fun q hq => (hmems q hq).1) (fun q hq => (hmems q hq).2)

theorem baseOf_wp_bounds {meets : List Meet} {sid : Int} {b : Base}
    (h : baseOf meets sid = some b) : 0 ≤ b.wp ∧ b.wp ≤ 1 := by
  rw [baseOf_eq h]
  dsimp only
  split
  · rename_i hpos
    have hden : (0 : ℚ) < (((get_dual_match_record meets sid).1 +
        (get_dual_match_record meets sid).2.1 + (get_dual_match_record meets sid).2.2 : Nat) : ℚ) := by
      exact_mod_cast hpos
    constructor
    · apply div_nonneg _ hden.le
      positivity
    · rw [div_le_one hden]
      push_cast
      have h2 : (0 : ℚ) ≤ ((get_dual_match_record meets sid).2.1 : ℚ) := by positivity
      have h3 : (0 : ℚ) ≤ ((get_dual_match_record meets sid).2.2 : ℚ) := by positivity
      linarith
  · norm_num

theorem baseMap_wp_bounds (P : Partition) :
    ∀ p ∈ baseMap P, 0 ≤ p.2.wp ∧ p.2.wp ≤ 1 := by
  intro p hp
  obtain ⟨q, _, hfb⟩ := List.mem_filterMap.mp hp
  obtain ⟨b', hb', hpb⟩ := Option.map_eq_some'.mp hfb
  have : b' = p.2 := congrArg Prod.snd hpb
  exact this ▸ baseOf_wp_bounds hb'

theorem lookupB_mem {bm : List (Int × Base)} {i : Int} {ob : Base}
    (h : lookupB bm i = some ob) : ∃ pr ∈ bm, pr.2 = ob := by
  simp only [lookupB] at h
  cases hf : bm.find? (fun p => p.1 == i) with
  | none => rw [hf] at h; simp at h
  | some pr =>
    rw [hf] at h
    exact ⟨pr, List.mem_of_find?_eq_some hf, by simpa using h⟩

theorem owpOf_bounds {bm : List (Int × Base)}
    (hbm : ∀ p ∈ bm, 0 ≤ p.2.wp ∧ p.2.wp ≤ 1) (b : Base) :
    0 ≤ owpOf bm b ∧ owpOf bm b ≤ 1 := by
  have hval : ∀ q ∈ b.opponents.map (fun o =>
      match lookupB bm o with
      | some ob => ob.wp
      | none => (1 : ℚ)/2), 0 ≤ q ∧ q ≤ 1 := by
    intro q hq
    obtain ⟨o, _, rfl⟩ := List.mem_map.mp hq
    cases hl : lookupB bm o with
    | none =>
      simp only [hl]
      norm_num
    | some ob =>
      simp only [hl]
      obtain ⟨pr, hpr, hpe⟩ := lookupB_mem hl
      have hb := hbm pr hpr
      rw [hpe] at hb
      exact hb
  rw [owpOf]
  split
  · norm_num
  · exact mean_bounds (fun q hq => (hval q hq).1) (fun q hq => (hval q hq).2)

theorem oowpOf_bounds {bm : List (Int × Base)}
    (hbm : ∀ p ∈ bm, 0 ≤ p.2.wp ∧ p.2.wp ≤ 1) (b : Base) :
    0 ≤ oowpOf bm b ∧ oowpOf bm b ≤ 1 := by
  have hval : ∀ q ∈ b.opponents.map (fun o =>
      match lookupB bm o with
      | some ob => owpOf bm ob
      | none => (1 : ℚ)/2), 0 ≤ q ∧ q ≤ 1 := by
    intro q hq
    obtain ⟨o, _, rfl⟩ := List.mem_map.mp hq
    cases hl : lookupB bm o with
    | none =>
      simp only [hl]
      norm_num
    | some ob =>
      simp only [hl]
      exact owpOf_bounds hbm ob
  rw [oowpOf]
  split
  · norm_num
  · exact mean_bounds (fun q hq => (hval q hq).1) (fun q hq => (hval q hq).2)

/-- C6 (amended with the single-credit proviso): for a ranked team whose dual
meets never credit it twice within one flight, all six percentage-like values
lie in [0, 1].  (Without the proviso the FWS ratio can exceed 1, see the
counterexample.) -/
theorem c6_bounds (P : Partition) (lg : Int → String) (sid : Int) (r : Rating)
    (d : SeasonData)
    (hnd : (P.map Prod.fst).Nodup)
    (hmem : (sid, r) ∈ finalRanking P lg)
    (hd : cacheOf P sid = some d)
    (hsc : SingleCredit sid (getMeets d)) :
    (0 ≤ r.wp ∧ r.wp ≤ 1) ∧ (0 ≤ r.owp ∧ r.owp ≤ 1) ∧ (0 ≤ r.oowp ∧ r.oowp ≤ 1) ∧
    (0 ≤ r.apr ∧ r.apr ≤ 1) ∧ (0 ≤ r.normalized_fws ∧ r.normalized_fws ≤ 1) ∧
    (0 ≤ r.power_index ∧ r.power_index ≤ 1) := by
  obtain ⟨b, hbase, rfl⟩ := mem_final_base hnd hmem hd
  have hbm := baseMap_wp_bounds P
  have hwp : 0 ≤ b.wp ∧ b.wp ≤ 1 := baseOf_wp_bounds hbase
  have howp := owpOf_bounds hbm b
  have hoowp := oowpOf_bounds hbm b
  have hnfeq : b.normalized_fws = calculate_fws_per_match (getMeets d) sid := by
    rw [baseOf_eq hbase]
  have hnf : 0 ≤ b.normalized_fws ∧ b.normalized_fws ≤ 1 := by
    rw [hnfeq]
    exact calc_fws_bounds hsc
  have hr1 : (ratingOf (baseMap P) b).wp = b.wp := rfl
  have hr2 : (ratingOf (baseMap P) b).owp = owpOf (baseMap P) b := rfl
  have hr3 : (ratingOf (baseMap P) b).oowp = oowpOf (baseMap P) b := rfl
  have hr4 : (ratingOf (baseMap P) b).apr =
      b.wp * (1/4) + owpOf (baseMap P) b * (1/2) + oowpOf (baseMap P) b * (1/4) := rfl
  have hr5 : (ratingOf (baseMap P) b).normalized_fws = b.normalized_fws := rfl
  have hr6 : (ratingOf (baseMap P) b).power_index =
      (b.wp * (1/4) + owpOf (baseMap P) b * (1/2) + oowpOf (baseMap P) b * (1/4)) * (1/2) +
      b.normalized_fws * (1/2) := rfl
  rw [hr1, hr2, hr3, hr4, hr5, hr6]
  obtain ⟨hwp0, hwp1⟩ := hwp
  obtain ⟨howp0, howp1⟩ := howp
  obtain ⟨hoowp0, hoowp1⟩ := hoowp
  obtain ⟨hnf0, hnf1⟩ := hnf
  refine ⟨⟨hwp0, hwp1⟩, ⟨howp0, howp1⟩, ⟨hoowp0, hoowp1⟩, ⟨?_, ?_⟩, ⟨hnf0, hnf1⟩, ⟨?_, ?_⟩⟩ <;>
    nlinarith

/-! ### Degenerate double-credit input (counterexamples to C5 and C6) -/

/-- A dual meet in which the single flight lists two `matchTeams` entries both
flagged winner and both belonging to school 1: the accumulation credits the
flight's weight twice against an available weight counted once. -/
def meetDW : Meet :=
  { title := "Weird vs Data", winners := [⟨1, some 5⟩], losers := [⟨2, some 0⟩],
    singles := [{ flight := "1", matchTeams := [mkTeam true 1, mkTeam true 1] }],
    doubles := [], date := "2024-04-02" }

/-- Partition holding only school 1's degenerate season file. -/
def P6 : Partition := [(1, { meets := some [meetDW] })]

set_option maxRecDepth 100000 in
/-- Counterexample to C5 as stated: on the double-credit input the emitted
`normalized_fws` is 2, while the mean of per-meet
`points_earned / weight_available` ratios (points = weights of contested
flights the team won) is 1. -/
theorem c5_counterexample :
    calculate_fws_per_match [meetDW] 1 = 2 ∧ specMeanFws [meetDW] 1 = 1 ∧ ((2 : ℚ) ≠ 1) := by
  refine ⟨?_, ?_, by norm_num⟩
  · with_unfolding_all decide
  · with_unfolding_all decide

set_option maxRecDepth 100000 in
/-- Counterexample to C6 as stated: the pipeline accepts the double-credit
input and emits `normalized_fws = 2` and `power_index = 21/16`, all outside
[0, 1]. -/
theorem c6_counterexample :
    (finalRanking P6 lgEmpty).map (fun p => (p.1, p.2.normalized_fws, p.2.power_index)) =
      [(1, 2, 21/16)] ∧ ¬ ((2 : ℚ) ≤ 1) ∧ ¬ ((21 : ℚ)/16 ≤ 1) := by
  refine ⟨?_, by norm_num, by norm_num⟩
  with_unfolding_all decide

set_option maxRecDepth 100000 in
/-- Concrete evaluation of the Scenario A partition's final ranking. -/
theorem finalPA_eval : finalRanking PA lgEmpty = [(1, rA)] := by
  with_unfolding_all decide

set_option maxRecDepth 100000 in
/-- Witness for C2 at the Scenario A partition: the single opponent (school 2)
is unknown, so `owp = oowp = 0.5`. -/
theorem c2_witness :
    distinctOpponents [meetA] 1 ≠ [] ∧
    rA.owp = ((distinctOpponents [meetA] 1).map (owpContribution PA)).sum /
      ((distinctOpponents [meetA] 1).length : ℚ) ∧
    rA.oowp = ((distinctOpponents [meetA] 1).map (oowpContribution PA)).sum /
      ((distinctOpponents [meetA] 1).length : ℚ) :=
  c2_owp_oowp_means PA lgEmpty 1 rA { meets := some [meetA] }
    (by decide) (by rw [finalPA_eval]; exact List.mem_singleton.mpr rfl)
    (by with_unfolding_all decide)

set_option maxRecDepth 100000 in
/-- Witness for the amended C5 at the Scenario A partition
(`normalized_fws = 2.75/3.95 = 55/79`). -/
theorem c5_witness :
    rA.normalized_fws = specMeanFws [meetA] 1 ∧
    rA.fws = rA.normalized_fws * MAX_FWS ∧ MAX_FWS = 79/20 :=
  c5_fws_mean PA lgEmpty 1 rA { meets := some [meetA] }
    (by decide) (by rw [finalPA_eval]; exact List.mem_singleton.mpr rfl)
    (by with_unfolding_all decide)
    (by with_unfolding_all decide)
    (by with_unfolding_all decide)

set_option maxRecDepth 100000 in
/-- Witness for the amended C6 at the Scenario A partition. -/
theorem c6_witness :
    (0 ≤ rA.wp ∧ rA.wp ≤ 1) ∧ (0 ≤ rA.owp ∧ rA.owp ≤ 1) ∧ (0 ≤ rA.oowp ∧ rA.oowp ≤ 1) ∧
    (0 ≤ rA.apr ∧ rA.apr ≤ 1) ∧ (0 ≤ rA.normalized_fws ∧ rA.normalized_fws ≤ 1) ∧
    (0 ≤ rA.power_index ∧ rA.power_index ≤ 1) :=
  c6_bounds PA lgEmpty 1 rA { meets := some [meetA] } (by decide)
    (by rw [finalPA_eval]; exact List.mem_singleton.mpr rfl)
    (by with_unfolding_all decide) (by with_unfolding_all decide)

/-- Spec-side: the Phase 2 consideration condition — Power-Index gap strictly
below 0.02, or a shared non-empty league with league ranks at most 2 apart. -/
def phase2Considered (lg : Int → String) (lrank : Int → Nat) (s1 s2 : Int)
    (r1 r2 : Rating) : Prop :=
  |r1.power_index - r2.power_index| < 1/50 ∨
  ((lg s1 ≠ "" ∧ lg s1 = lg s2) ∧ ((lrank s1 : Int) - (lrank s2 : Int)).natAbs ≤ 2)

/-- Spec-side: the head-to-head edge of the lower-ranked team — strictly more
wins than losses, or a split series (equal, nonzero) with a strictly greater
combined per-meeting flight-weighted score. -/
def h2hSwapEdge (h : H2H) : Prop :=
  h.losses < h.wins ∨
  (h.wins = h.losses ∧ 0 < h.wins ∧ (splitFwsTotals h).2 < (splitFwsTotals h).1)

/-- Spec-side: the full swap condition of one Phase 2 step, including the
cycle-avoidance check. -/
def phase2DoSwap (lg : Int → String) (lrank : Int → Nat) (s1 s2 : Int)
    (r1 r2 : Rating) (h : H2H) (swaps : List Swap) : Prop :=
  phase2Considered lg lrank s1 s2 r1 r2 ∧ h2hSwapEdge h ∧
    would_create_circle s2 s1 swaps = false

instance (lg : Int → String) (lrank : Int → Nat) (s1 s2 : Int) (r1 r2 : Rating) :
    Decidable (phase2Considered lg lrank s1 s2 r1 r2) := by
  unfold phase2Considered
  infer_instance

instance (h : H2H) : Decidable (h2hSwapEdge h) := by
  unfold h2hSwapEdge
  infer_instance

instance (lg : Int → String) (lrank : Int → Nat) (s1 s2 : Int) (r1 r2 : Rating)
    (h : H2H) (swaps : List Swap) :
    Decidable (phase2DoSwap lg lrank s1 s2 r1 r2 h swaps) := by
  unfold phase2DoSwap
  infer_instance

/-- C3: one step of the Phase 2 pass at position `i` swaps the adjacent pair
iff the pair is considered (Power-Index gap below 0.02, or shared non-empty
league with league ranks at most 2 apart) and the lower-ranked team holds the
head-to-head edge (strict win edge, or split series decided by the per-meeting
flight-weighted totals), subject to the cycle-avoidance check; otherwise the
order is unchanged.  The pass itself is a single left-to-right fold, not
repeated to a fixpoint. -/
theorem c3_phase2_single_pass
    (lg : Int → String) (lrank : Int → Nat) (cache : Int → Option SeasonData)
    (st : TState) (i : Nat) (s1 s2 : Int) (r1 r2 : Rating) (d1 d2 : SeasonData)
    (h1 : st.ranked[i]? = some (s1, r1)) (h2 : st.ranked[i + 1]? = some (s2, r2))
    (hc1 : cache s1 = some d1) (hc2 : cache s2 = some d2) :
    ((phase2Step lg lrank cache st i).ranked =
      if phase2DoSwap lg lrank s1 s2 r1 r2
          (get_head_to_head_detailed (getMeets d2) s2 s1) st.swaps
      then swapAdj st.ranked i else st.ranked) ∧
    phase2 lg lrank cache st =
      (List.range (st.ranked.length - 1)).foldl (phase2Step lg lrank cache) st := by
  refine ⟨?_, rfl⟩
  simp only [phase2Step, h1, h2, hc1, hc2]
  by_cases hcons : phase2Considered lg lrank s1 s2 r1 r2
  · have hcb : (decide (|r1.power_index - r2.power_index| < 1/50) ||
        (!(lg s1 == "") && lg s1 == lg s2 &&
          decide (((lrank s1 : Int) - (lrank s2 : Int)).natAbs ≤ 2))) = true := by
      simpa [phase2Considered] using hcons
    rw [hcb]
    simp only [if_true]
    by_cases hw1 : (get_head_to_head_detailed (getMeets d2) s2 s1).losses <
        (get_head_to_head_detailed (getMeets d2) s2 s1).wins
    · rw [if_pos hw1]
      by_cases hblk : would_create_circle s2 s1 st.swaps = false
      · have hb2 : (!would_create_circle s2 s1 st.swaps) = true := by
          rw [hblk]
          rfl
        simp only [hb2, if_true]
        have hpos : phase2DoSwap lg lrank s1 s2 r1 r2
            (get_head_to_head_detailed (getMeets d2) s2 s1) st.swaps :=
          ⟨hcons, Or.inl hw1, hblk⟩
        rw [if_pos hpos]
      · have hb2 : (!would_create_circle s2 s1 st.swaps) = false := by
          rcases Bool.eq_false_or_eq_true (would_create_circle s2 s1 st.swaps) with hb | hb
          · rw [hb]
            rfl
          · exact (hblk hb).elim
        simp only [hb2, Bool.false_eq_true, if_false]
        have hneg : ¬ phase2DoSwap lg lrank s1 s2 r1 r2
            (get_head_to_head_detailed (getMeets d2) s2 s1) st.swaps :=
          fun hds => hblk hds.2.2
        rw [if_neg hneg]
        simp
    · rw [if_neg hw1]
      by_cases hw2 : ((get_head_to_head_detailed (getMeets d2) s2 s1).wins ==
          (get_head_to_head_detailed (getMeets d2) s2 s1).losses &&
          decide (0 < (get_head_to_head_detailed (getMeets d2) s2 s1).wins)) = true
      · rw [if_pos hw2]
        by_cases hw3 : (splitFwsTotals (get_head_to_head_detailed (getMeets d2) s2 s1)).2 <
            (splitFwsTotals (get_head_to_head_detailed (getMeets d2) s2 s1)).1
        · rw [if_pos hw3]
          by_cases hblk : would_create_circle s2 s1 st.swaps = false
          · have hb2 : (!would_create_circle s2 s1 st.swaps) = true := by
              rw [hblk]
              rfl
            simp only [hb2, if_true]
            have hwl := (Bool.and_eq_true ..).mp hw2
            have hpos : phase2DoSwap lg lrank s1 s2 r1 r2
                (get_head_to_head_detailed (getMeets d2) s2 s1) st.swaps :=
              ⟨hcons, Or.inr ⟨by simpa using hwl.1, by simpa using hwl.2, hw3⟩, hblk⟩
            rw [if_pos hpos]
          · have hb2 : (!would_create_circle s2 s1 st.swaps) = false := by
              rcases Bool.eq_false_or_eq_true (would_create_circle s2 s1 st.swaps) with hb | hb
              · rw [hb]
                rfl
              · exact (hblk hb).elim
            simp only [hb2, Bool.false_eq_true, if_false]
            have hneg : ¬ phase2DoSwap lg lrank s1 s2 r1 r2
                (get_head_to_head_detailed (getMeets d2) s2 s1) st.swaps :=
              fun hds => hblk hds.2.2
            rw [if_neg hneg]
            simp
        · rw [if_neg hw3]
          have hneg : ¬ phase2DoSwap lg lrank s1 s2 r1 r2
              (get_head_to_head_detailed (getMeets d2) s2 s1) st.swaps := by
            intro hds
            rcases hds.2.1 with hl | hr
            · exact hw1 hl
            · exact hw3 hr.2.2
          rw [if_neg hneg]
          simp
      · rw [Bool.not_eq_true] at hw2
        rw [hw2]
        simp only [Bool.false_eq_true, if_false]
        have hneg : ¬ phase2DoSwap lg lrank s1 s2 r1 r2
            (get_head_to_head_detailed (getMeets d2) s2 s1) st.swaps := by
          intro hds
          rcases hds.2.1 with hl | hr
          · exact hw1 hl
          · have hcontra : ((get_head_to_head_detailed (getMeets d2) s2 s1).wins ==
                (get_head_to_head_detailed (getMeets d2) s2 s1).losses &&
                decide (0 < (get_head_to_head_detailed (getMeets d2) s2 s1).wins)) = true := by
              simp only [hr.1, beq_self_eq_true, Bool.true_and, decide_eq_true_eq]
              exact hr.1 ▸ hr.2.1
            rw [hw2] at hcontra
            simp at hcontra
        rw [if_neg hneg]
  · have hcb : (decide (|r1.power_index - r2.power_index| < 1/50) ||
        (!(lg s1 == "") && lg s1 == lg s2 &&
          decide (((lrank s1 : Int) - (lrank s2 : Int)).natAbs ≤ 2))) = false := by
      rw [Bool.eq_false_iff]
      intro hT
      exact hcons (by simpa [phase2Considered] using hT)
    rw [hcb]
    simp only [Bool.false_eq_true, if_false]
    have hneg : ¬ phase2DoSwap lg lrank s1 s2 r1 r2
        (get_head_to_head_detailed (getMeets d2) s2 s1) st.swaps :=
      fun hds => hcons hds.1
    rw [if_neg hneg]

/-! ### C10: first-roster-entry crediting in the head-to-head FWS -/

theorem h2h_matchList_aux (s1 s2 : Int) :
    ∀ (meets : List Meet) (acc : H2H),
      (meets.foldl (h2hMeetStep s1 s2) acc).matchList = acc.matchList ++
        ((meets.filter (fun m => is_dual_match m && h2hIsVs s1 s2 m)).map
          (h2hEntry s1 s2)) := by
  intro meets
  induction meets with
  | nil => intro acc; simp
  | cons m t ih =>
    intro acc
    rw [List.foldl_cons, ih]
    by_cases hd : is_dual_match m = true
    · rcases hscan : h2hScanEntries s1 s2 (m.winners ++ m.losers) (none, none, false) with
        ⟨q1, q2, vs⟩
      match q1, q2, vs with
      | some q1, some q2, true =>
        have hvs : h2hIsVs s1 s2 m = true := by
          rw [h2hIsVs, hscan]
        have hstep : (h2hMeetStep s1 s2 acc m).matchList = acc.matchList ++
            [h2hEntry s1 s2 m] := by
          rw [h2hMeetStep, if_pos hd, hscan, h2hEntry, hscan]
        rw [hstep]
        rw [List.filter_cons_of_pos (by rw [hd, hvs]; rfl), List.map_cons]
        simp
      | some q1, some q2, false =>
        have hvs : h2hIsVs s1 s2 m = false := by
          rw [h2hIsVs, hscan]
        have hstep : h2hMeetStep s1 s2 acc m = acc := by
          rw [h2hMeetStep, if_pos hd, hscan]
        rw [hstep, List.filter_cons_of_neg (by simp [hd, hvs])]
      | some q1, none, vs =>
        have hvs : h2hIsVs s1 s2 m = false := by
          rw [h2hIsVs, hscan]
        have hstep : h2hMeetStep s1 s2 acc m = acc := by
          rw [h2hMeetStep, if_pos hd, hscan]
        rw [hstep, List.filter_cons_of_neg (by simp [hd, hvs])]
      | none, q2, vs =>
        have hvs : h2hIsVs s1 s2 m = false := by
          rw [h2hIsVs, hscan]
        have hstep : h2hMeetStep s1 s2 acc m = acc := by
          rw [h2hMeetStep, if_pos hd, hscan]
        rw [hstep, List.filter_cons_of_neg (by simp [hd, hvs])]
    · have hstep : h2hMeetStep s1 s2 acc m = acc := by
        rw [h2hMeetStep]
        simp [hd]
      rw [hstep, List.filter_cons_of_neg (by simp [hd])]

theorem h2hIsVs_scan {s1 s2 : Int} {m : Meet} (h : h2hIsVs s1 s2 m = true) :
    ∃ q1 q2, h2hScanEntries s1 s2 (m.winners ++ m.losers) (none, none, false) =
      (some q1, some q2, true) := by
  rw [h2hIsVs] at h
  rcases hscan : h2hScanEntries s1 s2 (m.winners ++ m.losers) (none, none, false) with
    ⟨q1, q2, vs⟩
  rw [hscan] at h
  match q1, q2, vs, h with
  | some q1, some q2, true, _ => exact ⟨q1, q2, rfl⟩

theorem h2hEntry_fws {s1 s2 : Int} {m : Meet} (h : h2hIsVs s1 s2 m = true) :
    (h2hEntry s1 s2 m).fws1 = (h2hMeetFws s1 s2 m).1 ∧
    (h2hEntry s1 s2 m).fws2 = (h2hMeetFws s1 s2 m).2 := by
  obtain ⟨q1, q2, hscan⟩ := h2hIsVs_scan h
  rw [h2hEntry, hscan]
  exact ⟨rfl, rfl⟩

/-- C10: the head-to-head FWS loop inspects only the FIRST roster entry of each
winning team (the player loop breaks unconditionally), so a school whose player
is listed in a winning team but not first earns no credit for the flight; and
the Phase 2 split-series tiebreak compares exactly the sums of these
head-credit totals over the registered meetings. -/
theorem c10_head_only_credit :
    (∀ (s1 s2 : Int) (w : ℚ) (acc : ℚ × ℚ) (t : MatchTeam),
        ¬ (t.players.head?.map Player.schoolId = some (some s1)) →
        (h2hTeamCredit s1 s2 w acc t).1 = acc.1) ∧
    h2hTeamCredit 1 2 1 (0, 0)
      (⟨true, [⟨some 3⟩, ⟨some 1⟩]⟩ : MatchTeam) = (0, 0) ∧
    (∀ (meets : List Meet) (s1 s2 : Int),
      splitFwsTotals (get_head_to_head_detailed meets s1 s2) =
        (((meets.filter (fun m => is_dual_match m && h2hIsVs s1 s2 m)).map
            (fun m => (h2hMeetFws s1 s2 m).1)).sum,
         ((meets.filter (fun m => is_dual_match m && h2hIsVs s1 s2 m)).map
            (fun m => (h2hMeetFws s1 s2 m).2)).sum)) := by
  refine ⟨?_, by with_unfolding_all decide, ?_⟩
  · intro s1 s2 w acc t hhead
    rw [h2hTeamCredit]
    by_cases hw : t.isWinner
    · simp only [hw, if_true]
      cases hp : t.players.head? with
      | none => rfl
      | some p =>
        by_cases h1 : (p.schoolId == some s1) = true
        · exfalso
          apply hhead
          rw [hp, Option.map_some', (beq_iff_eq ..).mp h1]
        · simp only [h1, Bool.false_eq_true, if_false]
          by_cases h2 : (p.schoolId == some s2) = true
          · simp [h2]
          · simp [h1, h2]
    · simp [hw]
  · intro meets s1 s2
    have hlist : (get_head_to_head_detailed meets s1 s2).matchList =
        ((meets.filter (fun m => is_dual_match m && h2hIsVs s1 s2 m)).map
          (h2hEntry s1 s2)) := by
      rw [get_head_to_head_detailed, h2h_matchList_aux]
      rfl
    rw [splitFwsTotals, hlist]
    have hmap1 : ((meets.filter (fun m => is_dual_match m && h2hIsVs s1 s2 m)).map
          (h2hEntry s1 s2)).map (fun mm => mm.fws1) =
        (meets.filter (fun m => is_dual_match m && h2hIsVs s1 s2 m)).map
          (fun m => (h2hMeetFws s1 s2 m).1) := by
      rw [List.map_map]
      apply List.map_congr_left
      intro m hm
      have hvs : h2hIsVs s1 s2 m = true :=
        ((Bool.and_eq_true ..).mp (List.mem_filter.mp hm).2).2
      exact (h2hEntry_fws hvs).1
    have hmap2 : ((meets.filter (fun m => is_dual_match m && h2hIsVs s1 s2 m)).map
          (h2hEntry s1 s2)).map (fun mm => mm.fws2) =
        (meets.filter (fun m => is_dual_match m && h2hIsVs s1 s2 m)).map
          (fun m => (h2hMeetFws s1 s2 m).2) := by
      rw [List.map_map]
      apply List.map_congr_left
      intro m hm
      have hvs : h2hIsVs s1 s2 m = true :=
        ((Bool.and_eq_true ..).mp (List.mem_filter.mp hm).2).2
      exact (h2hEntry_fws hvs).2
    rw [hmap1, hmap2]

/-- Witness for C10's universal head-credit clause at a concrete winning team
whose sole roster entry belongs to neither school. -/
theorem c10_witness :
    (h2hTeamCredit 5 6 1 (0, 0) (⟨true, [⟨some 7⟩]⟩ : MatchTeam)).1 = 0 :=
  c10_head_only_credit.1 5 6 1 (0, 0)
    (⟨true, [⟨some 7⟩]⟩ : MatchTeam) (by decide)

/-! ### Concrete Phase 2 scenario (witness data for C3) -/

/-- A meet in which school 20 defeats school 10 by 5-1. -/
def meetW3 : Meet :=
  { title := "Gamma vs Delta", winners := [⟨20, some 5⟩], losers := [⟨10, some 1⟩],
    singles := [], doubles := [], date := "2024-05-01" }

/-- Ratings placing school 10 barely above school 20
(Power-Index gap 0.001 < 0.02). -/
def r10 : Rating :=
  { wp := 1, owp := 1, oowp := 1, apr := 1, fws := 0, normalized_fws := 0,
    power_index := 1/2 }

/-- See `r10`. -/
def r20 : Rating :=
  { wp := 1, owp := 1, oowp := 1, apr := 1, fws := 0, normalized_fws := 0,
    power_index := 499/1000 }

/-- Phase 2 input state: school 10 ranked above school 20, no swaps yet. -/
def st3 : TState := { ranked := [(10, r10), (20, r20)], swaps := [], pairs := [] }

/-- Season cache: both schools share the meet record. -/
def cache3 : Int → Option SeasonData := fun i =>
  if i == 10 || i == 20 then some { meets := some [meetW3] } else none

set_option maxRecDepth 100000 in
/-- Witness for C3 at the concrete two-team state: the theorem's hypotheses
hold by evaluation and the characterization applies. -/
theorem c3_witness :
    ((phase2Step lgEmpty (fun _ => 0) cache3 st3 0).ranked =
      if phase2DoSwap lgEmpty (fun _ => 0) 10 20 r10 r20
          (get_head_to_head_detailed (getMeets { meets := some [meetW3] }) 20 10) st3.swaps
      then swapAdj st3.ranked 0 else st3.ranked) ∧
    phase2 lgEmpty (fun _ => 0) cache3 st3 =
      (List.range (st3.ranked.length - 1)).foldl (phase2Step lgEmpty (fun _ => 0) cache3) st3 :=
  c3_phase2_single_pass lgEmpty (fun _ => 0) cache3 st3 0 10 20 r10 r20
    { meets := some [meetW3] } { meets := some [meetW3] }
    (by with_unfolding_all decide) (by with_unfolding_all decide)
    (by with_unfolding_all decide) (by with_unfolding_all decide)
